import Mathlib

/-!
Verification of the cinema-microservice core (server seat ledger, booking
service, message router, snapshot codec, client snapshot parser, and the
per-session send queue) against its natural-language specification.

Strings are modelled as lists of characters (`Str`); a C++ `std::string`
is a character sequence, and `std::getline` splitting, `find`, `substr`
and stream tokenisation are modelled as the corresponding list operations.
-/

namespace Cinema

/-- Character-list model of `std::string`. -/
abbrev Str := List Char

/-- Coerce a Lean string literal to the character-list model. -/
def strOf (s : String) : Str := s.toList

/-! ### String primitives used by the C++ sources

`std::getline(ss, item, d)` splitting, `std::string::find`, `substr`,
`operator>>` tokenisation and `std::stoi` are modelled here on `Str`. -/

/-- Split on a delimiter, keeping empty segments (plain split). -/
def splitCh (d : Char) : Str → List Str
  | [] => [[]]
  | c :: rest =>
    if c = d then [] :: splitCh d rest
    else
      match splitCh d rest with
      | [] => [[c]]
      | t :: ts => (c :: t) :: ts

/-- `while (std::getline(ss, item, d))`: yields the segments between
delimiters; the segment after a trailing delimiter is not produced (the
final `getline` hits end-of-stream having read nothing), and an empty
input yields no segments at all. -/
def getlineSplit (d : Char) (s : Str) : List Str :=
  if s = [] then []
  else if s.getLast? = some d then (splitCh d s).dropLast
  else splitCh d s

/-- `std::string::find(needle)`: index of the first occurrence of `needle`
as a substring, `none` standing for `npos`.  An empty needle matches at 0. -/
def findSub (needle : Str) : Str → Option Nat
  | [] => if needle.isPrefixOf [] then some 0 else none
  | c :: rest =>
    if needle.isPrefixOf (c :: rest) then some 0
    else (findSub needle rest).map (· + 1)

/-- `s.find(needle) != std::string::npos`. -/
def containsSub (needle hay : Str) : Bool := (findSub needle hay).isSome

/-- C-locale `isspace`, as used by `operator>>` extraction. -/
def isCppSpace (c : Char) : Bool :=
  c = ' ' || c = '\t' || c = '\n' || c = '\x0b' || c = '\x0c' || c = '\r'

/-- Worker for `wsTokens`: `acc` holds the current token reversed. -/
def wsTokensGo : Str → Str → List Str
  | [], acc => if acc.isEmpty then [] else [acc.reverse]
  | c :: cs, acc =>
    if isCppSpace c then
      if acc.isEmpty then wsTokensGo cs []
      else acc.reverse :: wsTokensGo cs []
    else wsTokensGo cs (c :: acc)

/-- `while (stream >> token)`: the maximal runs of non-whitespace characters. -/
def wsTokens (s : Str) : List Str := wsTokensGo s []

/-- Value of a run of decimal digits. -/
def digitsVal (ds : Str) : Nat :=
  ds.foldl (fun a c => a * 10 + (c.toNat - 48)) 0

/-- `std::stoi` (base 10): skip leading whitespace, optional sign, then at
least one digit; `invalid_argument` when no digit is read and
`out_of_range` when the value does not fit in `int` — both modelled as
`.error ()` because every caller in the sources catches `std::exception`
uniformly. -/
def stoi (s : Str) : Except Unit Int :=
  let s1 := s.dropWhile isCppSpace
  let signAndRest : Int × Str :=
    match s1 with
    | '-' :: r => (-1, r)
    | '+' :: r => (1, r)
    | _ => (1, s1)
  let digits := signAndRest.2.takeWhile Char.isDigit
  if digits = [] then .error ()
  else
    let v : Int := signAndRest.1 * (digitsVal digits : Int)
    if v < -2147483648 ∨ 2147483647 < v then .error () else .ok v

deriving instance DecidableEq for Except

/-- Decimal rendering of a seat number or count (`operator<<` on `int`,
`std::to_string`). -/
def natStr (n : Nat) : Str := (Nat.repr n).toList

/-- `", "`-style separator join: the C++ loops emit `sep` after every
element but the last. -/
def joinSep (sep : Str) : List Str → Str
  | [] => []
  | [x] => x
  | x :: y :: rest => x ++ sep ++ joinSep sep (y :: rest)

/-- Concatenate lines, terminating each with a newline, exactly as the
formatting code emits them into its `stringstream`. -/
def linesJoin (ls : List Str) : Str :=
  ls.foldr (fun l acc => l ++ '\n' :: acc) []

/-- The loop body shared by both `getAvailableSeats` implementations: for
each index `i` with `seats[i] = false`, emit the 1-based seat number
`i + 1`, in ascending index order. -/
def availList (seats : List Bool) : List Nat :=
  (List.range seats.length).filterMap fun i =>
    if seats.getD i true then none else some (i + 1)

namespace Server

/-- Server-side `Shows` (src/server/lib/cinema.cpp): movie title, date/time,
theater name and the seat bitmap (`false` = available, `true` = booked).
The constructor resizes the bitmap to 20 entries, all available. -/
structure Shows where
  movie : Str
  dateTime : Str
  theater : Str
  seats : List Bool
deriving DecidableEq

/-- `Shows::Shows`: all 20 seats initially available. -/
def Shows.mk20 (m dt t : Str) : Shows :=
  ⟨m, dt, t, List.replicate 20 false⟩

/-- `Shows::getAvailableSeats`. -/
def Shows.getAvailableSeats (sh : Shows) : List Nat :=
  availList sh.seats

/-- The per-seat validity check of `Shows::bookSeats`: the seat number is
rejected when `seat < 1`, `seat > seats.size()`, or `seats[seat-1]` is
already booked (short-circuit order as in the source). -/
def seatCheck (seats : List Bool) (seat : Nat) : Bool :=
  !(decide (seat < 1) || decide (seat > seats.length) || seats.getD (seat - 1) false)

/-- `Shows::bookSeats`: first a check loop over all requested seat numbers
(early exit with `false` on the first failing seat, mutating nothing), then
a write loop marking every requested seat booked, returning `true`.
Returns the result together with the (possibly updated) show. -/
def Shows.bookSeats (sh : Shows) (seatNumbers : List Nat) : Bool × Shows :=
  if seatNumbers.all (seatCheck sh.seats) then
    (true, { sh with seats := seatNumbers.foldl (fun ss seat => ss.set (seat - 1) true) sh.seats })
  else
    (false, sh)

/-- `CinemaService::formatCinemaData` theater grouping: distinct theater
names in first-seen order (`std::find` + `push_back`). -/
def theatersInOrder (shows : List Shows) : List Str :=
  shows.foldl (fun acc sh => if acc.contains sh.theater then acc else acc ++ [sh.theater]) []

/-- The seat list portion of an availability line: comma-separated seat
numbers, or the literal `SOLD OUT` when none are available. -/
def seatsBody (avail : List Nat) : Str :=
  if avail.isEmpty then strOf "SOLD OUT" else joinSep (strOf ", ") (avail.map natStr)

/-- The two lines emitted per show: the movie line and the availability
line (with the unconditional `(Total: k/20)` suffix). -/
def showLines (sh : Shows) : List Str :=
  [strOf "  Movie: " ++ sh.movie ++ strOf " (" ++ sh.dateTime ++ strOf ")",
   strOf "    Available seats: " ++ seatsBody sh.getAvailableSeats
     ++ strOf " (Total: " ++ natStr sh.getAvailableSeats.length ++ strOf "/20)"]

/-- One theater's block: the `Theater:` line, the lines of every show of
that theater in catalog order, then a blank separator line. -/
def theaterBlock (shows : List Shows) (t : Str) : List Str :=
  ((strOf "Theater: " ++ t) :: (shows.filter (fun sh => sh.theater == t)).flatMap showLines)
    ++ [[]]

/-- The line sequence of `CinemaService::formatCinemaData`. -/
def formatLines (shows : List Shows) : List Str :=
  (strOf "=== CINEMA DATA STREAM ===" :: (theatersInOrder shows).flatMap (theaterBlock shows))
    ++ [strOf "=== END CINEMA DATA ==="]

namespace CinemaService

/-- `CinemaService::formatCinemaData`: the full snapshot text. -/
def formatCinemaData (shows : List Shows) : Str := linesJoin (formatLines shows)

/-- `CinemaService::formatUpdateData`: same body with update markers and
the `BOOKING_UPDATE:` prefix line. -/
def formatUpdateData (shows : List Shows) : Str :=
  linesJoin ((strOf "BOOKING_UPDATE:" :: strOf "=== UPDATED CINEMA DATA ==="
      :: (theatersInOrder shows).flatMap (theaterBlock shows))
    ++ [strOf "=== END UPDATED DATA ==="])

end CinemaService

namespace BookingService

/-- `BookingService::BookingResult`. -/
structure BookingResult where
  success : Bool
  message : Str
  shouldBroadcast : Bool
deriving DecidableEq

/-- The two seat-token failure modes of `processBooking`: `stoi` threw
(format error) or the parsed value fell outside `(0, 20]` (range error). -/
inductive SeatErr
  | fmt (tok : Str)
  | range (tok : Str)
deriving DecidableEq

/-- The seat-parsing loop of `processBooking` over `parts[2..]`: first
failing token aborts; `static_cast<uint8_t>` of an in-range value is the
value itself. -/
def parseSeatTokens : List Str → Except SeatErr (List Nat)
  | [] => .ok []
  | tok :: rest =>
    match stoi tok with
    | .error _ => .error (.fmt tok)
    | .ok n =>
      if 0 < n ∧ n ≤ 20 then
        match parseSeatTokens rest with
        | .error e => .error e
        | .ok l => .ok (n.toNat :: l)
      else .error (.range tok)

/-- The show-lookup-and-book loop of `processBooking`: the first show
matching theater and movie is booked (successfully or not) and the loop
returns immediately; `none` when no show matches. -/
def findAndBook (t m : Str) (sns : List Nat) : List Shows → Option (Bool × List Shows)
  | [] => none
  | sh :: rest =>
    if sh.theater == t && sh.movie == m then
      some ((sh.bookSeats sns).1, (sh.bookSeats sns).2 :: rest)
    else
      match findAndBook t m sns rest with
      | none => none
      | some r => some (r.1, sh :: r.2)

/-- `BookingService::processBooking`, returning the result and the
(possibly updated) catalog. -/
def processBooking (message : Str) (shows : List Shows) : BookingResult × List Shows :=
  let parts := getlineSplit ',' message
  if parts.length < 3 then
    (⟨false, strOf "ERROR: Invalid booking format. Use: theater,movie,seat1,seat2,...\n\n"
        ++ CinemaService.formatCinemaData shows, false⟩, shows)
  else
    let theaterName := parts.getD 0 []
    let movieName := parts.getD 1 []
    match parseSeatTokens (parts.drop 2) with
    | .error (.range tok) =>
      (⟨false, strOf "ERROR: Invalid seat number " ++ tok ++ strOf ". Must be 1-20.\n\n"
          ++ CinemaService.formatCinemaData shows, false⟩, shows)
    | .error (.fmt tok) =>
      (⟨false, strOf "ERROR: Invalid seat number format: " ++ tok ++ strOf "\n\n"
          ++ CinemaService.formatCinemaData shows, false⟩, shows)
    | .ok seatNumbers =>
      match findAndBook theaterName movieName seatNumbers shows with
      | some (true, shows2) =>
        (⟨true, strOf "SUCCESS: Booked seats " ++ joinSep (strOf ", ") (seatNumbers.map natStr)
            ++ strOf " for " ++ movieName ++ strOf " at " ++ theaterName ++ strOf "\n\n"
            ++ CinemaService.formatCinemaData shows2, true⟩, shows2)
      | some (false, shows2) =>
        (⟨false, strOf "ERROR: One or more seats are already booked or invalid\n\n"
            ++ CinemaService.formatCinemaData shows2, false⟩, shows2)
      | none =>
        (⟨false, strOf "ERROR: Show not found - " ++ movieName ++ strOf " at " ++ theaterName
            ++ strOf "\n\n" ++ CinemaService.formatCinemaData shows, false⟩, shows)

end BookingService

namespace MessageHandler

/-- `MessageHandler::handleMessage`: response text, broadcast flag, and
the (possibly updated) catalog. -/
def handleMessage (received : Str) (shows : List Shows) : Str × Bool × List Shows :=
  if received = strOf "get_data" ∨ received = strOf "refresh" then
    (CinemaService.formatCinemaData shows, false, shows)
  else if containsSub (strOf ",") received then
    ((BookingService.processBooking received shows).1.message,
     (BookingService.processBooking received shows).1.shouldBroadcast,
     (BookingService.processBooking received shows).2)
  else
    (strOf "Echo: " ++ received ++ strOf "\n\n" ++ CinemaService.formatCinemaData shows,
     false, shows)

end MessageHandler

end Server

namespace Client

/-- Client-side `Shows` (src/client/lib/cinema_Client.cpp). -/
structure Shows where
  movie : Str
  dateTime : Str
  theater : Str
  seats : List Bool
deriving DecidableEq

/-- `Shows::Shows`: 20 seats, all available. -/
def Shows.mk20 (m dt t : Str) : Shows :=
  ⟨m, dt, t, List.replicate 20 false⟩

/-- `Shows::getAvailableSeats` (client copy, same logic as the server). -/
def Shows.getAvailableSeats (sh : Shows) : List Nat :=
  availList sh.seats

/-- `Shows::updateSeatAvailability`: replace the bitmap only when the
supplied vector's size equals the current size. -/
def Shows.updateSeatAvailability (sh : Shows) (seatStatus : List Bool) : Shows :=
  if seatStatus.length = sh.seats.length then { sh with seats := seatStatus } else sh

end Client

namespace CinemaClient

/-- `CinemaProtocol::THEATER_PREFIX`. -/
def theaterTag : Str := strOf "Theater: "

/-- `CinemaProtocol::MOVIE_PREFIX`. -/
def movieTag : Str := strOf "  Movie: "

/-- The availability-line marker searched for by the parser. -/
def seatsTag : Str := strOf "    Available seats:"

/-- The loop state of `CinemaClient::parseAndUpdateShows`: the current
theater string, whether `currentShow` points at the last parsed show, and
the rebuilt show list. -/
structure ParseState where
  currentTheater : Str
  hasCurrent : Bool
  shows : List Client.Shows
deriving DecidableEq

/-- `currentShow->updateSeatAvailability(...)`: `currentShow` is always a
pointer to the last element of the rebuilt list. -/
def updateLastShow : List Client.Shows → List Bool → List Client.Shows
  | [], _ => []
  | [sh], st => [sh.updateSeatAvailability st]
  | a :: b :: rest, st => a :: updateLastShow (b :: rest) st

/-- One iteration of the availability-line token loop: strip one trailing
comma from the token, `stoi` it, and mark a value in `[1,20]` available;
unparsable or out-of-range tokens are skipped. -/
def seatTokStep (bs : List Bool) (tok : Str) : List Bool :=
  let tok2 := if tok ≠ [] ∧ tok.getLast? = some ',' then tok.dropLast else tok
  match stoi tok2 with
  | .ok n => if 1 ≤ n ∧ n ≤ 20 then bs.set (n.toNat - 1) false else bs
  | .error _ => bs

/-- The token loop of the availability-line branch: start from 20 booked
seats and process each token. -/
def seatStatusOf (toks : List Str) : List Bool :=
  toks.foldl seatTokStep (List.replicate 20 true)

/-- One iteration of the `std::getline` loop of `parseAndUpdateShows`. -/
def parseLine (st : ParseState) (line : Str) : ParseState :=
  if theaterTag.isPrefixOf line then
    { st with currentTheater := line.drop 9, hasCurrent := false }
  else if movieTag.isPrefixOf line && !st.currentTheater.isEmpty then
    let movieLine := line.drop 9
    match findSub (strOf " (") movieLine with
    | none => st
    | some datePos =>
      match findSub (strOf "(") movieLine with
      | none => st
      | some p =>
        match findSub (strOf ")") movieLine with
        | some endDate =>
          if p + 1 < endDate then
            { st with
                hasCurrent := true,
                shows := st.shows ++ [Client.Shows.mk20 (movieLine.take datePos)
                  ((movieLine.drop (p + 1)).take (endDate - (p + 1))) st.currentTheater] }
          else st
        | none =>
          { st with
              hasCurrent := true,
              shows := st.shows ++ [Client.Shows.mk20 (movieLine.take datePos)
                (movieLine.drop (p + 1)) st.currentTheater] }
  else if containsSub seatsTag line && st.hasCurrent then
    let seatsLine :=
      match findSub (strOf ":") line with
      | some cp => line.drop (cp + 1)
      | none => line
    let seatsLine2 :=
      match findSub (strOf "(Total:") seatsLine with
      | some tp => seatsLine.take tp
      | none => seatsLine
    { st with shows := updateLastShow st.shows (seatStatusOf (wsTokens seatsLine2)) }
  else st

/-- `CinemaClient::parseAndUpdateShows`: clears the cached show list, then
folds `parseLine` over the response's lines; the result is the rebuilt
list. -/
def parseAndUpdateShows (response : Str) : List Client.Shows :=
  ((getlineSplit '\n' response).foldl parseLine ⟨[], false, []⟩).shows

/-- `CinemaClient::isCinemaDataStream`. -/
def isCinemaDataStream (response : Str) : Bool :=
  containsSub (strOf "=== CINEMA DATA STREAM ===") response ||
  containsSub (strOf "=== UPDATED CINEMA DATA ===") response

end CinemaClient

namespace WebSocketSession

/-- Per-session send-queue state (`WebSocketSession` in
src/server/lib/websocket_server.cpp): the pending queue, the
`writing_` flag, the single in-flight `async_write` (if any), and the
messages whose writes have completed, in completion order. -/
structure SessionSt where
  message_queue : List Str
  writing : Bool
  inflight : Option Str
  sent : List Str
deriving DecidableEq

/-- `WebSocketSession::do_write`: if the queue is empty, clear `writing_`
and stop; otherwise set `writing_`, pop the front message and start its
`async_write`. -/
def do_write (s : SessionSt) : SessionSt :=
  match s.message_queue with
  | [] => { s with writing := false }
  | m :: rest => { s with writing := true, message_queue := rest, inflight := some m }

/-- `WebSocketSession::send_message`: push onto the queue; start a write
only when none is in progress. -/
def send_message (s : SessionSt) (m : Str) : SessionSt :=
  let s1 : SessionSt := { s with message_queue := s.message_queue ++ [m] }
  if s1.writing then s1 else do_write s1

/-- `WebSocketSession::on_write` (success path): the in-flight write has
completed and been delivered; chain into `do_write` for the next one. -/
def on_write (s : SessionSt) : SessionSt :=
  match s.inflight with
  | some m => do_write { s with sent := s.sent ++ [m], inflight := none }
  | none => s

/-- Session events: an application call to `send_message`, or the
completion callback of the outstanding write. -/
inductive Ev
  | send (m : Str)
  | writeDone
deriving DecidableEq

/-- Reactor dispatch: callbacks of one session never run concurrently, so
a session history is a sequence of atomic events. -/
def step (s : SessionSt) : Ev → SessionSt
  | .send m => send_message s m
  | .writeDone => on_write s

/-- Initial session state: empty queue, `writing_ = false`. -/
def initSt : SessionSt := ⟨[], false, none, []⟩

/-- Run a session history from the initial state. -/
def exec (evs : List Ev) : SessionSt := evs.foldl step initSt

/-- The messages enqueued by a history, in enqueue order. -/
def sends (evs : List Ev) : List Str :=
  evs.filterMap fun e => match e with | .send m => some m | .writeDone => none

/-- Session lifecycle phases: before handshake completion, after
(`Active`), and terminated. -/
inductive Phase
  | connecting
  | active
  | closed
deriving DecidableEq

/-- Lifecycle state: phase, membership in the hub's `sessions_` set, and
the messages enqueued to this session so far. -/
structure LifeSt where
  phase : Phase
  registered : Bool
  enqueued : List Str
deriving DecidableEq

/-- Lifecycle events: `run()` (registration + handshake start), handshake
completion, handshake failure. -/
inductive LifeEv
  | runStart
  | acceptOk
  | acceptErr
deriving DecidableEq

/-- From `WebSocketSession::run` and `WebSocketSession::on_accept`:
`run()` calls `server_->addSession(...)` and then starts `async_accept`;
`on_accept` without error enqueues the initial snapshot and enters the
active read loop; `on_accept` with an error removes the session. -/
def lifeStep (initialData : Str) (s : LifeSt) : LifeEv → LifeSt
  | .runStart => { s with registered := true }
  | .acceptOk => { s with phase := .active, enqueued := s.enqueued ++ [initialData] }
  | .acceptErr => { s with phase := .closed, registered := false }

/-- A session starts unregistered, in the pre-handshake phase. -/
def lifeInit : LifeSt := ⟨.connecting, false, []⟩

/-- Run a lifecycle history. -/
def lifeExec (initialData : Str) (evs : List LifeEv) : LifeSt :=
  evs.foldl (lifeStep initialData) lifeInit

end WebSocketSession

/-- A concrete ledger for witness statements: a fresh show, 20 free seats. -/
def sh0 : Server.Shows :=
  Server.Shows.mk20 (strOf "Inception") (strOf "2025-09-11 19:30") (strOf "PVR")

/-- A concrete ledger with seat 1 already booked (as in the spec's own
scenario of a ledger with booked seats). -/
def shBooked1 : Server.Shows :=
  ⟨strOf "Inception", strOf "2025-09-11 19:30", strOf "PVR", true :: List.replicate 19 false⟩

/-- The comma-terminated token shapes the formatter's seat list produces:
every seat number but the last carries a trailing comma (the `", "`
separator splits into `<digits>,` tokens under whitespace tokenisation). -/
def commaTokens : List Nat → List Str
  | [] => []
  | [n] => [natStr n]
  | n :: rest => (natStr n ++ [',']) :: commaTokens rest

/-- Well-formedness of a show's display strings under which the text
snapshot is unambiguous: the theater name is nonempty (the parser ignores
movie lines with no current theater), no field embeds a newline (lines
are the protocol unit), the movie title contains no parenthesis and the
date/time is nonempty and contains no closing parenthesis (the parser
locates the date/time between the first `" ("` and the first `")"`), and
the seat bitmap has the constructor's 20 entries. -/
def wfShow (sh : Server.Shows) : Prop :=
  sh.theater ≠ [] ∧ '\n' ∉ sh.theater
    ∧ '\n' ∉ sh.movie ∧ '(' ∉ sh.movie ∧ ')' ∉ sh.movie
    ∧ sh.dateTime ≠ [] ∧ '\n' ∉ sh.dateTime ∧ ')' ∉ sh.dateTime
    ∧ sh.seats.length = 20

instance (sh : Server.Shows) : Decidable (wfShow sh) := by
  unfold wfShow
  infer_instance

/-- The catalog reordered the way the formatter walks it: theaters in
first-seen order, and within a theater the shows in catalog order. -/
def groupedByTheater (shows : List Server.Shows) : List Server.Shows :=
  (Server.theatersInOrder shows).flatMap fun t =>
    shows.filter (fun sh => sh.theater == t)

/-- The client-side rendition of a server show: same display fields, same
seat bitmap. -/
def reconstruct (sh : Server.Shows) : Client.Shows :=
  ⟨sh.movie, sh.dateTime, sh.theater, sh.seats⟩

/-- All messages a session still owes or has delivered, in order: delivered
writes, then the in-flight write, then the queue. -/
def WebSocketSession.allMsgs (s : WebSocketSession.SessionSt) : List Str :=
  s.sent ++ s.inflight.toList ++ s.message_queue

/-- A seat token the validation loop of `processBooking` rejects: `stoi`
throws, or the parsed value is outside `(0, 20]`. -/
def badTok (tok : Str) : Prop :=
  match stoi tok with
  | .error _ => True
  | .ok n => ¬(0 < n ∧ n ≤ 20)

/-! ### Seat-ledger lemmas (claim C1) -/

theorem seatCheck_eq_true_iff (seats : List Bool) (s : Nat) :
    Server.seatCheck seats s = true ↔
      1 ≤ s ∧ s ≤ seats.length ∧ seats.getD (s - 1) false = false := by
  simp only [Server.seatCheck, Bool.not_eq_true', Bool.or_eq_false_iff,
    decide_eq_false_iff_not, not_lt]
  tauto

theorem length_foldl_set (ns : List Nat) (bs : List Bool) :
    (ns.foldl (fun ss seat => ss.set (seat - 1) true) bs).length = bs.length := by
  induction ns generalizing bs with
  | nil => rfl
  | cons n rest ih => simp [ih, List.length_set]

theorem getD_foldl_set (ns : List Nat) (bs : List Bool) (j : Nat)
    (hns : ∀ n ∈ ns, 1 ≤ n ∧ n ≤ bs.length) :
    (ns.foldl (fun ss seat => ss.set (seat - 1) true) bs).getD j false
      = (bs.getD j false || decide ((j + 1) ∈ ns)) := by
  induction ns generalizing bs with
  | nil => simp
  | cons n rest ih =>
    obtain ⟨hn1, hn2⟩ := hns n (by simp)
    simp only [List.foldl_cons]
    rw [ih (bs.set (n - 1) true)
      (fun m hm => by simpa [List.length_set] using hns m (by simp [hm]))]
    by_cases hj : n - 1 = j
    · have hjn : j + 1 = n := by omega
      have hlt : n - 1 < bs.length := by omega
      rw [List.getD_eq_getElem?_getD, List.getElem?_set, if_pos hj, if_pos hlt]
      simp [hjn]
    · have hjn : ¬ (j + 1 = n) := by omega
      rw [List.getD_eq_getElem?_getD, List.getElem?_set, if_neg hj,
        ← List.getD_eq_getElem?_getD]
      simp [List.mem_cons, hjn]

/-- C1: `bookSeats(S)` succeeds iff every element of `S` is in `[1,20]` and
currently available; on success exactly the seats in `S` become booked
(position `i` holds `old ∨ (i+1 ∈ S)`) with everything else unchanged; on
failure the show is unchanged; the empty list succeeds without mutation;
duplicates are harmless (the conditions are membership conditions on `S`). -/
theorem bookSeats_spec (sh : Server.Shows) (S : List Nat)
    (hlen : sh.seats.length = 20) :
    ((sh.bookSeats S).1 = true ↔
        ∀ s ∈ S, 1 ≤ s ∧ s ≤ 20 ∧ sh.seats.getD (s - 1) false = false)
    ∧ ((sh.bookSeats S).1 = true →
        (sh.bookSeats S).2.movie = sh.movie
        ∧ (sh.bookSeats S).2.dateTime = sh.dateTime
        ∧ (sh.bookSeats S).2.theater = sh.theater
        ∧ (sh.bookSeats S).2.seats.length = 20
        ∧ ∀ i < 20, (sh.bookSeats S).2.seats.getD i false
            = (sh.seats.getD i false || decide ((i + 1) ∈ S)))
    ∧ ((sh.bookSeats S).1 = false → (sh.bookSeats S).2 = sh)
    ∧ ((sh.bookSeats []).1 = true ∧ (sh.bookSeats []).2 = sh) := by
  have hfst : (sh.bookSeats S).1 = S.all (Server.seatCheck sh.seats) := by
    unfold Server.Shows.bookSeats
    split <;> simp_all
  refine ⟨?_, ?_, ?_, ?_⟩
  · rw [hfst, List.all_eq_true]
    constructor
    · intro h s hs
      have hthis := (seatCheck_eq_true_iff sh.seats s).1 (h s hs)
      exact ⟨hthis.1, hlen ▸ hthis.2.1, hthis.2.2⟩
    · intro h s hs
      rw [seatCheck_eq_true_iff]
      have hthis := h s hs
      exact ⟨hthis.1, hlen ▸ hthis.2.1, hthis.2.2⟩
  · intro hsucc
    have hall : S.all (Server.seatCheck sh.seats) = true := by rw [← hfst]; exact hsucc
    have hmem : ∀ s ∈ S, 1 ≤ s ∧ s ≤ sh.seats.length := by
      intro s hs
      have := (seatCheck_eq_true_iff sh.seats s).1 (List.all_eq_true.1 hall s hs)
      omega
    have hbook : (sh.bookSeats S).2
        = { sh with seats := S.foldl (fun ss seat => ss.set (seat - 1) true) sh.seats } := by
      unfold Server.Shows.bookSeats
      rw [if_pos hall]
    refine ⟨by rw [hbook], by rw [hbook], by rw [hbook], ?_, ?_⟩
    · rw [hbook]; simpa [length_foldl_set] using hlen
    · intro i _
      rw [hbook]
      exact getD_foldl_set S sh.seats i hmem
  · intro hfail
    unfold Server.Shows.bookSeats at hfail ⊢
    split at hfail
    · exact absurd hfail (by simp)
    · rename_i hcond
      rw [if_neg hcond]
  · constructor
    · unfold Server.Shows.bookSeats; simp
    · unfold Server.Shows.bookSeats; simp

theorem bookSeats_spec_witness :
    sh0.seats.length = 20
    ∧ (((sh0.bookSeats [3, 3, 4]).1 = true ↔
          ∀ s ∈ [3, 3, 4], 1 ≤ s ∧ s ≤ 20 ∧ sh0.seats.getD (s - 1) false = false)
        ∧ ((sh0.bookSeats [3, 3, 4]).1 = true →
            (sh0.bookSeats [3, 3, 4]).2.movie = sh0.movie
            ∧ (sh0.bookSeats [3, 3, 4]).2.dateTime = sh0.dateTime
            ∧ (sh0.bookSeats [3, 3, 4]).2.theater = sh0.theater
            ∧ (sh0.bookSeats [3, 3, 4]).2.seats.length = 20
            ∧ ∀ i < 20, (sh0.bookSeats [3, 3, 4]).2.seats.getD i false
                = (sh0.seats.getD i false || decide ((i + 1) ∈ [3, 3, 4])))
        ∧ ((sh0.bookSeats [3, 3, 4]).1 = false → (sh0.bookSeats [3, 3, 4]).2 = sh0)
        ∧ ((sh0.bookSeats []).1 = true ∧ (sh0.bookSeats []).2 = sh0)) :=
  ⟨by decide, bookSeats_spec sh0 [3, 3, 4] (by decide)⟩

/-! ### Shared `bookSeats` helper lemmas -/

theorem bookSeats_true_iff (sh : Server.Shows) (S : List Nat) :
    (sh.bookSeats S).1 = true ↔
      ∀ s ∈ S, 1 ≤ s ∧ s ≤ sh.seats.length ∧ sh.seats.getD (s - 1) false = false := by
  have hfst : (sh.bookSeats S).1 = S.all (Server.seatCheck sh.seats) := by
    unfold Server.Shows.bookSeats
    split <;> simp_all
  rw [hfst, List.all_eq_true]
  constructor
  · intro h s hs
    exact (seatCheck_eq_true_iff sh.seats s).1 (h s hs)
  · intro h s hs
    exact (seatCheck_eq_true_iff sh.seats s).2 (h s hs)

theorem bookSeats_fail_unchanged (sh : Server.Shows) (S : List Nat)
    (hfail : (sh.bookSeats S).1 = false) : (sh.bookSeats S).2 = sh := by
  unfold Server.Shows.bookSeats at hfail ⊢
  split at hfail
  · exact absurd hfail (by simp)
  · rename_i hcond
    rw [if_neg hcond]

theorem bookSeats_success_getD (sh : Server.Shows) (S : List Nat)
    (hsucc : (sh.bookSeats S).1 = true) (i : Nat) :
    (sh.bookSeats S).2.seats.getD i false
      = (sh.seats.getD i false || decide ((i + 1) ∈ S)) := by
  have hmem : ∀ s ∈ S, 1 ≤ s ∧ s ≤ sh.seats.length := by
    intro s hs
    have h := (bookSeats_true_iff sh S).1 hsucc s hs
    exact ⟨h.1, h.2.1⟩
  have hall : S.all (Server.seatCheck sh.seats) = true := by
    rw [List.all_eq_true]
    intro s hs
    exact (seatCheck_eq_true_iff sh.seats s).2 ((bookSeats_true_iff sh S).1 hsucc s hs)
  unfold Server.Shows.bookSeats
  rw [if_pos hall]
  exact getD_foldl_set S sh.seats i hmem

/-! ### Client seat-bitmap invariant (claim C10) -/

theorem updateSeat_length (sh : Client.Shows) (v : List Bool) :
    (sh.updateSeatAvailability v).seats.length = sh.seats.length := by
  unfold Client.Shows.updateSeatAvailability
  split <;> simp_all

/-- C10: the client `updateSeatAvailability` replaces the bitmap only when
the supplied vector has exactly the current length, leaves the show
untouched otherwise, and therefore any sequence of updates starting from
the constructor keeps the seat vector at exactly 20 entries. -/
theorem updateSeatAvailability_spec :
    (∀ (sh : Client.Shows) (v : List Bool),
        v.length ≠ sh.seats.length → sh.updateSeatAvailability v = sh)
    ∧ (∀ (sh : Client.Shows) (v : List Bool),
        v.length = sh.seats.length →
          (sh.updateSeatAvailability v).seats = v
          ∧ (sh.updateSeatAvailability v).movie = sh.movie
          ∧ (sh.updateSeatAvailability v).dateTime = sh.dateTime
          ∧ (sh.updateSeatAvailability v).theater = sh.theater)
    ∧ (∀ (m dt t : Str) (updates : List (List Bool)),
        (updates.foldl Client.Shows.updateSeatAvailability (Client.Shows.mk20 m dt t)).seats.length
          = 20) := by
  refine ⟨?_, ?_, ?_⟩
  · intro sh v h
    unfold Client.Shows.updateSeatAvailability
    rw [if_neg h]
  · intro sh v h
    unfold Client.Shows.updateSeatAvailability
    rw [if_pos h]
    exact ⟨rfl, rfl, rfl, rfl⟩
  · intro m dt t updates
    have hgen : ∀ (us : List (List Bool)) (sh : Client.Shows),
        (us.foldl Client.Shows.updateSeatAvailability sh).seats.length = sh.seats.length := by
      intro us
      induction us with
      | nil => intro sh; rfl
      | cons u rest ih =>
        intro sh
        rw [List.foldl_cons, ih, updateSeat_length]
    rw [hgen]
    simp [Client.Shows.mk20]

theorem updateSeatAvailability_spec_witness :
    ((Client.Shows.mk20 [] [] []).updateSeatAvailability [true] = Client.Shows.mk20 [] [] [])
    ∧ ((Client.Shows.mk20 [] [] []).updateSeatAvailability (List.replicate 20 true)).seats
        = List.replicate 20 true
    ∧ ([[true], List.replicate 20 true].foldl Client.Shows.updateSeatAvailability
        (Client.Shows.mk20 [] [] [])).seats.length = 20 :=
  ⟨updateSeatAvailability_spec.1 _ [true] (by decide),
   (updateSeatAvailability_spec.2.1 _ (List.replicate 20 true) (by decide)).1,
   updateSeatAvailability_spec.2.2 [] [] [] [[true], List.replicate 20 true]⟩

/-! ### Message router (claim C6) -/

/-- C6: the router is a three-way case split — exact `get_data`/`refresh`
returns the snapshot without broadcast; a message containing a comma is
delegated to the booking service with its broadcast flag propagated;
anything else is echoed with the snapshot appended and no broadcast. -/
theorem handleMessage_spec (received : Str) (shows : List Server.Shows) :
    ((received = strOf "get_data" ∨ received = strOf "refresh") →
      Server.MessageHandler.handleMessage received shows
        = (Server.CinemaService.formatCinemaData shows, false, shows))
    ∧ (¬(received = strOf "get_data" ∨ received = strOf "refresh") →
        containsSub (strOf ",") received = true →
        Server.MessageHandler.handleMessage received shows
          = ((Server.BookingService.processBooking received shows).1.message,
             (Server.BookingService.processBooking received shows).1.shouldBroadcast,
             (Server.BookingService.processBooking received shows).2))
    ∧ (¬(received = strOf "get_data" ∨ received = strOf "refresh") →
        containsSub (strOf ",") received = false →
        Server.MessageHandler.handleMessage received shows
          = (strOf "Echo: " ++ received ++ strOf "\n\n"
              ++ Server.CinemaService.formatCinemaData shows, false, shows)) := by
  refine ⟨?_, ?_, ?_⟩
  · intro h
    unfold Server.MessageHandler.handleMessage
    rw [if_pos h]
  · intro h hc
    unfold Server.MessageHandler.handleMessage
    rw [if_neg h, if_pos hc]
  · intro h hc
    unfold Server.MessageHandler.handleMessage
    rw [if_neg h, if_neg (by simp [hc])]

theorem handleMessage_spec_witness :
    (Server.MessageHandler.handleMessage (strOf "refresh") [sh0]
        = (Server.CinemaService.formatCinemaData [sh0], false, [sh0]))
    ∧ (Server.MessageHandler.handleMessage (strOf "a,b") [sh0]
        = ((Server.BookingService.processBooking (strOf "a,b") [sh0]).1.message,
           (Server.BookingService.processBooking (strOf "a,b") [sh0]).1.shouldBroadcast,
           (Server.BookingService.processBooking (strOf "a,b") [sh0]).2))
    ∧ (Server.MessageHandler.handleMessage (strOf "hello") [sh0]
        = (strOf "Echo: " ++ strOf "hello" ++ strOf "\n\n"
            ++ Server.CinemaService.formatCinemaData [sh0], false, [sh0])) :=
  ⟨(handleMessage_spec (strOf "refresh") [sh0]).1 (Or.inr (by decide)),
   (handleMessage_spec (strOf "a,b") [sh0]).2.1 (by decide) (by decide),
   (handleMessage_spec (strOf "hello") [sh0]).2.2 (by decide) (by decide)⟩

/-! ### Send-queue FIFO (claim C7) -/

theorem do_write_allMsgs (s : WebSocketSession.SessionSt)
    (hnone : s.inflight = none) :
    WebSocketSession.allMsgs (WebSocketSession.do_write s) = WebSocketSession.allMsgs s
    ∧ (WebSocketSession.do_write s).writing = (WebSocketSession.do_write s).inflight.isSome
    ∧ (WebSocketSession.do_write s).sent = s.sent := by
  unfold WebSocketSession.do_write
  match hq : s.message_queue with
  | [] => simp [WebSocketSession.allMsgs, hq, hnone]
  | m :: rest => simp [WebSocketSession.allMsgs, hq, hnone]

theorem send_message_eq (s : WebSocketSession.SessionSt) (m : Str) :
    WebSocketSession.send_message s m
      = if s.writing then ({ s with message_queue := s.message_queue ++ [m] })
        else WebSocketSession.do_write { s with message_queue := s.message_queue ++ [m] } := by
  unfold WebSocketSession.send_message
  rfl

theorem step_allMsgs (s : WebSocketSession.SessionSt) (e : WebSocketSession.Ev)
    (hw : s.writing = s.inflight.isSome) :
    WebSocketSession.allMsgs (WebSocketSession.step s e)
        = WebSocketSession.allMsgs s ++ WebSocketSession.sends [e]
    ∧ (WebSocketSession.step s e).writing = (WebSocketSession.step s e).inflight.isSome := by
  match e with
  | .send m =>
    have hstep : WebSocketSession.step s (.send m) = WebSocketSession.send_message s m := rfl
    rw [hstep, send_message_eq]
    by_cases hwr : s.writing = true
    · rw [if_pos hwr]
      refine ⟨by simp [WebSocketSession.allMsgs, WebSocketSession.sends], ?_⟩
      simpa using hw
    · rw [if_neg hwr]
      have hnone : s.inflight = none := by
        cases hin : s.inflight with
        | none => rfl
        | some v => rw [hin] at hw; simp [hw] at hwr
      have hd := do_write_allMsgs { s with message_queue := s.message_queue ++ [m] }
        (by simpa using hnone)
      refine ⟨?_, hd.2.1⟩
      rw [hd.1]
      simp [WebSocketSession.allMsgs, WebSocketSession.sends, hnone]
  | .writeDone =>
    have hstep : WebSocketSession.step s .writeDone = WebSocketSession.on_write s := rfl
    rw [hstep]
    unfold WebSocketSession.on_write
    cases hin : s.inflight with
    | none =>
      simp [WebSocketSession.sends, hin] at hw ⊢
      exact hw
    | some m =>
      have hd := do_write_allMsgs { s with sent := s.sent ++ [m], inflight := none } (by simp)
      constructor
      · show WebSocketSession.allMsgs (WebSocketSession.do_write
            { s with sent := s.sent ++ [m], inflight := none }) = _
        rw [hd.1]
        simp [WebSocketSession.allMsgs, WebSocketSession.sends, hin]
      · exact hd.2.1

theorem foldl_step_allMsgs (evs : List WebSocketSession.Ev)
    (s : WebSocketSession.SessionSt) (hw : s.writing = s.inflight.isSome) :
    WebSocketSession.allMsgs (evs.foldl WebSocketSession.step s)
        = WebSocketSession.allMsgs s ++ WebSocketSession.sends evs
    ∧ (evs.foldl WebSocketSession.step s).writing
        = (evs.foldl WebSocketSession.step s).inflight.isSome := by
  induction evs generalizing s with
  | nil => exact ⟨by simp [WebSocketSession.sends], hw⟩
  | cons e rest ih =>
    have h1 := step_allMsgs s e hw
    have h2 := ih (WebSocketSession.step s e) h1.2
    refine ⟨?_, h2.2⟩
    rw [List.foldl_cons, h2.1, h1.1]
    have hsends : WebSocketSession.sends (e :: rest)
        = WebSocketSession.sends [e] ++ WebSocketSession.sends rest := by
      cases e <;> simp [WebSocketSession.sends]
    rw [hsends, List.append_assoc]

/-- C7: per-session FIFO — after any sequence of `send_message` calls and
write completions, the delivered messages followed by the in-flight write
and the queued messages are exactly the enqueued messages in enqueue
order (so completions deliver in FIFO order and the delivered list is
always a prefix of the enqueue order), and a write is outstanding iff
`writing_` is set — the in-flight write is a single `Option`, so at most
one write is ever outstanding, a new one starting only when `do_write`
dequeues after a completion or a send finds the session idle. -/
theorem sendQueue_fifo (evs : List WebSocketSession.Ev) :
    ((WebSocketSession.exec evs).sent ++ (WebSocketSession.exec evs).inflight.toList
        ++ (WebSocketSession.exec evs).message_queue = WebSocketSession.sends evs)
    ∧ (WebSocketSession.exec evs).writing = (WebSocketSession.exec evs).inflight.isSome
    ∧ (∃ r, WebSocketSession.sends evs = (WebSocketSession.exec evs).sent ++ r) := by
  have h := foldl_step_allMsgs evs WebSocketSession.initSt rfl
  have hmsgs : WebSocketSession.allMsgs (WebSocketSession.exec evs)
      = WebSocketSession.sends evs := by
    rw [WebSocketSession.exec, h.1]
    simp [WebSocketSession.allMsgs, WebSocketSession.initSt]
  refine ⟨hmsgs, h.2, ?_⟩
  exact ⟨(WebSocketSession.exec evs).inflight.toList
      ++ (WebSocketSession.exec evs).message_queue, by rw [← hmsgs]; simp [WebSocketSession.allMsgs]⟩

/-! ### Session registration timing (claim C8) -/

/-- C8 as stated is false on the code: `run()` registers the session with
the hub *before* starting the websocket handshake, so immediately after
`run()` the session is registered while still in the pre-handshake
(`connecting`) phase, with nothing enqueued yet. -/
theorem session_registration_counterexample :
    (WebSocketSession.lifeExec [] [WebSocketSession.LifeEv.runStart]).registered = true
    ∧ (WebSocketSession.lifeExec [] [WebSocketSession.LifeEv.runStart]).phase
        = WebSocketSession.Phase.connecting
    ∧ (WebSocketSession.lifeExec [] [WebSocketSession.LifeEv.runStart]).enqueued = [] := by
  decide

/-- C8 amended: registration happens in `run()`, before the handshake
completes; on the transition into `Active` the initial snapshot is
immediately enqueued to the (already registered) session; a failed
handshake removes the session from the hub. -/
theorem session_registration_spec (d : Str) :
    ((WebSocketSession.lifeExec d [WebSocketSession.LifeEv.runStart]).registered = true
      ∧ (WebSocketSession.lifeExec d [WebSocketSession.LifeEv.runStart]).phase
          = WebSocketSession.Phase.connecting
      ∧ (WebSocketSession.lifeExec d [WebSocketSession.LifeEv.runStart]).enqueued = [])
    ∧ ((WebSocketSession.lifeExec d
          [WebSocketSession.LifeEv.runStart, WebSocketSession.LifeEv.acceptOk]).phase
          = WebSocketSession.Phase.active
      ∧ (WebSocketSession.lifeExec d
          [WebSocketSession.LifeEv.runStart, WebSocketSession.LifeEv.acceptOk]).registered = true
      ∧ (WebSocketSession.lifeExec d
          [WebSocketSession.LifeEv.runStart, WebSocketSession.LifeEv.acceptOk]).enqueued = [d])
    ∧ (WebSocketSession.lifeExec d
        [WebSocketSession.LifeEv.runStart, WebSocketSession.LifeEv.acceptErr]).registered
        = false :=
  ⟨⟨rfl, rfl, rfl⟩, ⟨rfl, rfl, rfl⟩, rfl⟩

/-! ### Snapshot-containment helper lemmas -/

theorem isPrefixOf_append_self (a b : Str) : a.isPrefixOf (a ++ b) = true :=
  List.isPrefixOf_iff_prefix.2 (List.prefix_append a b)

theorem findSub_isSome_of_isPrefixOf (n hay : Str) (h : n.isPrefixOf hay = true) :
    (findSub n hay).isSome = true := by
  cases hay with
  | nil => unfold findSub; rw [if_pos h]; rfl
  | cons c rest => unfold findSub; rw [if_pos h]; rfl

theorem findSub_cons (n : Str) (c : Char) (rest : Str) :
    findSub n (c :: rest)
      = if n.isPrefixOf (c :: rest) then some 0 else (findSub n rest).map (· + 1) := rfl

theorem containsSub_append_left (n a h : Str) (hc : containsSub n h = true) :
    containsSub n (a ++ h) = true := by
  induction a with
  | nil => simpa using hc
  | cons c a' ih =>
    rw [List.cons_append, containsSub, findSub_cons]
    split
    · rfl
    · rw [containsSub] at ih
      cases hf : findSub n (a' ++ h) with
      | none => rw [hf] at ih; simp at ih
      | some k => simp [hf]

theorem linesJoin_cons (l : Str) (ls : List Str) :
    linesJoin (l :: ls) = l ++ '\n' :: linesJoin ls := rfl

theorem formatCinemaData_contains_marker (shows : List Server.Shows) :
    containsSub (strOf "=== CINEMA DATA STREAM ===") (Server.CinemaService.formatCinemaData shows)
      = true := by
  have hshape : Server.CinemaService.formatCinemaData shows
      = strOf "=== CINEMA DATA STREAM ===" ++ ('\n'
          :: linesJoin ((Server.theatersInOrder shows).flatMap (Server.theaterBlock shows)
            ++ [strOf "=== END CINEMA DATA ==="])) := by
    unfold Server.CinemaService.formatCinemaData Server.formatLines
    rw [List.cons_append, linesJoin_cons]
  rw [hshape, containsSub]
  exact findSub_isSome_of_isPrefixOf _ _ (isPrefixOf_append_self _ _)

theorem findAndBook_false_unchanged (t m : Str) (sns : List Nat)
    (shows shows2 : List Server.Shows)
    (h : Server.BookingService.findAndBook t m sns shows = some (false, shows2)) :
    shows2 = shows := by
  induction shows generalizing shows2 with
  | nil => simp [Server.BookingService.findAndBook] at h
  | cons sh rest ih =>
    unfold Server.BookingService.findAndBook at h
    split at h
    · simp only [Option.some.injEq, Prod.mk.injEq] at h
      obtain ⟨hflag, hlist⟩ := h
      rw [← hlist, bookSeats_fail_unchanged sh sns (by rw [hflag])]
    · revert h
      cases hrec : Server.BookingService.findAndBook t m sns rest with
      | none => intro h; simp at h
      | some r =>
        cases r with
        | mk ok l =>
          intro h
          simp only [Option.some.injEq, Prod.mk.injEq] at h
          obtain ⟨hflag, hlist⟩ := h
          rw [← hlist, ih l (by rw [hrec, hflag])]

/-! ### Booking response shape and error-path purity (claim C2) -/

/-- C2: every `processBooking` response — success or error — ends with a
freshly formatted snapshot of the resulting catalog (so the client's
stream detector recognises it and its parser consumes it), and on every
error path (`success = false`) the catalog is returned unchanged and no
broadcast is requested. -/
theorem processBooking_spec (msg : Str) (shows : List Server.Shows) :
    (∃ p, (Server.BookingService.processBooking msg shows).1.message
        = p ++ Server.CinemaService.formatCinemaData
            (Server.BookingService.processBooking msg shows).2)
    ∧ CinemaClient.isCinemaDataStream
        (Server.BookingService.processBooking msg shows).1.message = true
    ∧ ((Server.BookingService.processBooking msg shows).1.success = false →
        (Server.BookingService.processBooking msg shows).2 = shows
        ∧ (Server.BookingService.processBooking msg shows).1.shouldBroadcast = false) := by
  have hmarker : ∀ (p : Str) (catalog : List Server.Shows),
      CinemaClient.isCinemaDataStream (p ++ Server.CinemaService.formatCinemaData catalog)
        = true := by
    intro p catalog
    unfold CinemaClient.isCinemaDataStream
    rw [containsSub_append_left _ _ _ (formatCinemaData_contains_marker catalog)]
    rfl
  simp only [Server.BookingService.processBooking]
  split
  · exact ⟨⟨_, rfl⟩, hmarker _ shows, fun _ => ⟨rfl, rfl⟩⟩
  · split
    · exact ⟨⟨_, rfl⟩, hmarker _ shows, fun _ => ⟨rfl, rfl⟩⟩
    · exact ⟨⟨_, rfl⟩, hmarker _ shows, fun _ => ⟨rfl, rfl⟩⟩
    · rename_i seatNumbers heq
      split
      · rename_i shows2 hb
        exact ⟨⟨_, rfl⟩, hmarker _ shows2, fun hfalse => by simp at hfalse⟩
      · rename_i shows2 hb
        have hunch : shows2 = shows := findAndBook_false_unchanged _ _ _ _ _ hb
        rw [hunch]
        exact ⟨⟨_, rfl⟩, hmarker _ shows, fun _ => ⟨rfl, rfl⟩⟩
      · exact ⟨⟨_, rfl⟩, hmarker _ shows, fun _ => ⟨rfl, rfl⟩⟩

theorem processBooking_spec_witness :
    (∃ p, (Server.BookingService.processBooking (strOf "nocomma") [sh0]).1.message
        = p ++ Server.CinemaService.formatCinemaData
            (Server.BookingService.processBooking (strOf "nocomma") [sh0]).2)
    ∧ CinemaClient.isCinemaDataStream
        (Server.BookingService.processBooking (strOf "nocomma") [sh0]).1.message = true
    ∧ ((Server.BookingService.processBooking (strOf "nocomma") [sh0]).2 = [sh0]
        ∧ (Server.BookingService.processBooking (strOf "nocomma") [sh0]).1.shouldBroadcast
            = false) :=
  ⟨(processBooking_spec (strOf "nocomma") [sh0]).1,
   (processBooking_spec (strOf "nocomma") [sh0]).2.1,
   (processBooking_spec (strOf "nocomma") [sh0]).2.2 (by decide)⟩

/-! ### Branch equations for `processBooking` -/

theorem isPrefixOf_append_middle (a b c : Str) : a.isPrefixOf (a ++ b ++ c) = true := by
  rw [List.append_assoc]
  exact isPrefixOf_append_self _ _

theorem processBooking_fewfields_eq (msg : Str) (shows : List Server.Shows)
    (h3 : (getlineSplit ',' msg).length < 3) :
    Server.BookingService.processBooking msg shows
      = (⟨false, strOf "ERROR: Invalid booking format. Use: theater,movie,seat1,seat2,...\n\n"
          ++ Server.CinemaService.formatCinemaData shows, false⟩, shows) := by
  simp only [Server.BookingService.processBooking]
  rw [if_pos h3]

theorem processBooking_range_eq (msg : Str) (shows : List Server.Shows) (tok : Str)
    (h3 : ¬ (getlineSplit ',' msg).length < 3)
    (herr : Server.BookingService.parseSeatTokens ((getlineSplit ',' msg).drop 2)
      = .error (.range tok)) :
    Server.BookingService.processBooking msg shows
      = (⟨false, strOf "ERROR: Invalid seat number " ++ tok ++ strOf ". Must be 1-20.\n\n"
          ++ Server.CinemaService.formatCinemaData shows, false⟩, shows) := by
  simp only [Server.BookingService.processBooking]
  rw [if_neg h3]
  split
  · rename_i tok2 heq
    rw [herr] at heq
    injection heq with h1
    injection h1 with h2
    rw [h2]
  · rename_i tok2 heq
    rw [herr] at heq
    injection heq with h1
    simp at h1
  · rename_i sns heq
    rw [herr] at heq
    simp at heq

theorem processBooking_fmt_eq (msg : Str) (shows : List Server.Shows) (tok : Str)
    (h3 : ¬ (getlineSplit ',' msg).length < 3)
    (herr : Server.BookingService.parseSeatTokens ((getlineSplit ',' msg).drop 2)
      = .error (.fmt tok)) :
    Server.BookingService.processBooking msg shows
      = (⟨false, strOf "ERROR: Invalid seat number format: " ++ tok ++ strOf "\n\n"
          ++ Server.CinemaService.formatCinemaData shows, false⟩, shows) := by
  simp only [Server.BookingService.processBooking]
  rw [if_neg h3]
  split
  · rename_i tok2 heq
    rw [herr] at heq
    injection heq with h1
    simp at h1
  · rename_i tok2 heq
    rw [herr] at heq
    injection heq with h1
    injection h1 with h2
    rw [h2]
  · rename_i sns heq
    rw [herr] at heq
    simp at heq

theorem parseSeatTokens_error_iff (toks : List Str) :
    (∃ e, Server.BookingService.parseSeatTokens toks = .error e) ↔ ∃ t ∈ toks, badTok t := by
  induction toks with
  | nil =>
    constructor
    · rintro ⟨e, he⟩
      exact absurd he (by simp [Server.BookingService.parseSeatTokens])
    · rintro ⟨t, ht, _⟩
      exact absurd ht (by simp)
  | cons tok rest ih =>
    constructor
    · rintro ⟨e, he⟩
      unfold Server.BookingService.parseSeatTokens at he
      cases hs : stoi tok with
      | error u =>
        exact ⟨tok, by simp, by simp [badTok, hs]⟩
      | ok n =>
        rw [hs] at he
        dsimp only at he
        by_cases hr : 0 < n ∧ n ≤ 20
        · rw [if_pos hr] at he
          cases hrec : Server.BookingService.parseSeatTokens rest with
          | error e2 =>
            obtain ⟨t, ht, hbad⟩ := ih.1 ⟨e2, hrec⟩
            exact ⟨t, by simp [ht], hbad⟩
          | ok l =>
            rw [hrec] at he
            simp at he
        · rw [if_neg hr] at he
          refine ⟨tok, by simp, ?_⟩
          simp only [badTok, hs]
          exact hr
    · rintro ⟨t, ht, hbad⟩
      rw [List.mem_cons] at ht
      unfold Server.BookingService.parseSeatTokens
      cases hs : stoi tok with
      | error u => exact ⟨.fmt tok, rfl⟩
      | ok n =>
        dsimp only
        by_cases hr : 0 < n ∧ n ≤ 20
        · rw [if_pos hr]
          have hrest : ∃ t2 ∈ rest, badTok t2 := by
            rcases ht with rfl | hmem
            · exfalso
              simp only [badTok, hs] at hbad
              exact hbad hr
            · exact ⟨t, hmem, hbad⟩
          obtain ⟨e2, he2⟩ := ih.2 hrest
          rw [he2]
          exact ⟨e2, rfl⟩
        · rw [if_neg hr]
          exact ⟨.range tok, rfl⟩

/-! ### Booking-request validation (claim C5) -/

/-- C5: the booking request is split on commas; fewer than 3 fields is a
format error; if any seat field fails `stoi` or parses outside `[1,20]`,
the whole request is rejected with no state change and no broadcast; when
the first failing token is out of range the response starts with
`ERROR: Invalid seat number <token>`. -/
theorem bookingParse_spec (msg : Str) (shows : List Server.Shows) :
    ((getlineSplit ',' msg).length < 3 →
        (Server.BookingService.processBooking msg shows).1.success = false
        ∧ (Server.BookingService.processBooking msg shows).2 = shows
        ∧ (strOf "ERROR: Invalid booking format").isPrefixOf
            (Server.BookingService.processBooking msg shows).1.message = true)
    ∧ (3 ≤ (getlineSplit ',' msg).length →
        (∃ t ∈ (getlineSplit ',' msg).drop 2, badTok t) →
        (Server.BookingService.processBooking msg shows).1.success = false
        ∧ (Server.BookingService.processBooking msg shows).2 = shows
        ∧ (Server.BookingService.processBooking msg shows).1.shouldBroadcast = false)
    ∧ (∀ tok, 3 ≤ (getlineSplit ',' msg).length →
        Server.BookingService.parseSeatTokens ((getlineSplit ',' msg).drop 2)
          = .error (.range tok) →
        (strOf "ERROR: Invalid seat number " ++ tok).isPrefixOf
            (Server.BookingService.processBooking msg shows).1.message = true) := by
  refine ⟨?_, ?_, ?_⟩
  · intro h3
    rw [processBooking_fewfields_eq msg shows h3]
    refine ⟨rfl, rfl, ?_⟩
    have hsplitlit : strOf "ERROR: Invalid booking format. Use: theater,movie,seat1,seat2,...\n\n"
        = strOf "ERROR: Invalid booking format"
          ++ strOf ". Use: theater,movie,seat1,seat2,...\n\n" := by decide
    show (strOf "ERROR: Invalid booking format").isPrefixOf
        (strOf "ERROR: Invalid booking format. Use: theater,movie,seat1,seat2,...\n\n"
          ++ Server.CinemaService.formatCinemaData shows) = true
    rw [hsplitlit]
    exact isPrefixOf_append_middle _ _ _
  · intro h3 hbad
    obtain ⟨e, he⟩ := (parseSeatTokens_error_iff _).2 hbad
    cases e with
    | range tok =>
      rw [processBooking_range_eq msg shows tok (not_lt.2 h3) he]
      exact ⟨rfl, rfl, rfl⟩
    | fmt tok =>
      rw [processBooking_fmt_eq msg shows tok (not_lt.2 h3) he]
      exact ⟨rfl, rfl, rfl⟩
  · intro tok h3 herr
    rw [processBooking_range_eq msg shows tok (not_lt.2 h3) herr]
    show (strOf "ERROR: Invalid seat number " ++ tok).isPrefixOf
        (strOf "ERROR: Invalid seat number " ++ tok ++ strOf ". Must be 1-20.\n\n"
          ++ Server.CinemaService.formatCinemaData shows) = true
    rw [List.append_assoc (strOf "ERROR: Invalid seat number " ++ tok)]
    exact isPrefixOf_append_self _ _

theorem bookingParse_spec_witness :
    ((Server.BookingService.processBooking (strOf "a,b") [sh0]).1.success = false
      ∧ (Server.BookingService.processBooking (strOf "a,b") [sh0]).2 = [sh0]
      ∧ (strOf "ERROR: Invalid booking format").isPrefixOf
          (Server.BookingService.processBooking (strOf "a,b") [sh0]).1.message = true)
    ∧ ((Server.BookingService.processBooking (strOf "PVR,Inception,21") [sh0]).1.success = false
      ∧ (Server.BookingService.processBooking (strOf "PVR,Inception,21") [sh0]).2 = [sh0]
      ∧ (Server.BookingService.processBooking
          (strOf "PVR,Inception,21") [sh0]).1.shouldBroadcast = false)
    ∧ (strOf "ERROR: Invalid seat number " ++ strOf "21").isPrefixOf
        (Server.BookingService.processBooking (strOf "PVR,Inception,21") [sh0]).1.message
        = true :=
  ⟨(bookingParse_spec (strOf "a,b") [sh0]).1 (by decide),
   (bookingParse_spec (strOf "PVR,Inception,21") [sh0]).2.1 (by decide)
     ⟨strOf "21", by decide, by show ¬(0 < (21 : Int) ∧ (21 : Int) ≤ 20); decide⟩,
   (bookingParse_spec (strOf "PVR,Inception,21") [sh0]).2.2 (strOf "21") (by decide) (by rfl)⟩

/-! ### Success-response shape (claim C4) -/

/-- C4 as stated is false on the code: for the request
`PVR,Inception,4,3` against a catalog where the show exists with all
seats free, the reservation succeeds and broadcasts, but the response
lists the seats in request order (`4, 3`), not ascending order (`3, 4`). -/
theorem bookingSuccess_order_counterexample :
    (Server.BookingService.processBooking (strOf "PVR,Inception,4,3") [sh0]).1.success = true
    ∧ (Server.BookingService.processBooking
        (strOf "PVR,Inception,4,3") [sh0]).1.shouldBroadcast = true
    ∧ (strOf "SUCCESS: Booked seats 4, 3 for Inception at PVR").isPrefixOf
        (Server.BookingService.processBooking (strOf "PVR,Inception,4,3") [sh0]).1.message
        = true
    ∧ (strOf "SUCCESS: Booked seats 3, 4").isPrefixOf
        (Server.BookingService.processBooking (strOf "PVR,Inception,4,3") [sh0]).1.message
        = false :=
  ⟨rfl, rfl, rfl, rfl⟩

/-- C4 amended: when the request parses, matches a show and the
reservation succeeds, the result is success with broadcast and the
response text is exactly `SUCCESS: Booked seats ` followed by the seat
numbers *in request order* separated by `", "`, then
` for <movie> at <theater>`, a blank line, and the fresh snapshot. -/
theorem processBooking_success_spec (msg : Str) (shows shows2 : List Server.Shows)
    (sns : List Nat)
    (h3 : ¬ (getlineSplit ',' msg).length < 3)
    (hseats : Server.BookingService.parseSeatTokens ((getlineSplit ',' msg).drop 2) = .ok sns)
    (hbook : Server.BookingService.findAndBook ((getlineSplit ',' msg).getD 0 [])
        ((getlineSplit ',' msg).getD 1 []) sns shows = some (true, shows2)) :
    Server.BookingService.processBooking msg shows
      = (⟨true, strOf "SUCCESS: Booked seats " ++ joinSep (strOf ", ") (sns.map natStr)
          ++ strOf " for " ++ (getlineSplit ',' msg).getD 1 []
          ++ strOf " at " ++ (getlineSplit ',' msg).getD 0 [] ++ strOf "\n\n"
          ++ Server.CinemaService.formatCinemaData shows2, true⟩, shows2) := by
  simp only [Server.BookingService.processBooking]
  rw [if_neg h3]
  split
  · rename_i tok2 heq
    rw [hseats] at heq
    simp at heq
  · rename_i tok2 heq
    rw [hseats] at heq
    simp at heq
  · rename_i sns2 heq
    rw [hseats] at heq
    injection heq with h1
    subst h1
    split
    · rename_i shows2b hb
      rw [hbook] at hb
      injection hb with h2
      injection h2 with hfl hlist
      subst hlist
      rfl
    · rename_i shows2b hb
      rw [hbook] at hb
      injection hb with h2
      injection h2 with hfl hlist
      simp at hfl
    · rename_i hb
      rw [hbook] at hb
      simp at hb

theorem processBooking_success_spec_witness :
    Server.BookingService.processBooking (strOf "PVR,Inception,4,3") [sh0]
      = (⟨true, strOf "SUCCESS: Booked seats " ++ joinSep (strOf ", ") ([4, 3].map natStr)
          ++ strOf " for " ++ (getlineSplit ',' (strOf "PVR,Inception,4,3")).getD 1 []
          ++ strOf " at " ++ (getlineSplit ',' (strOf "PVR,Inception,4,3")).getD 0 []
          ++ strOf "\n\n"
          ++ Server.CinemaService.formatCinemaData [(sh0.bookSeats [4, 3]).2], true⟩,
         [(sh0.bookSeats [4, 3]).2]) :=
  processBooking_success_spec (strOf "PVR,Inception,4,3") [sh0] [(sh0.bookSeats [4, 3]).2]
    [4, 3] (by decide) (by rfl) (by rfl)

/-! ### Overlapping reservations serialize (claim C9) -/

/-- C9 as stated is false on the code: two `reserve` calls against the
same ledger with the overlapping seat sets `[1]` and `[1]`, where seat 1
is already booked, both fail in either serialization order — zero
successes, not exactly one. -/
theorem reserve_overlap_counterexample :
    (shBooked1.bookSeats [1]).1 = false
    ∧ ((shBooked1.bookSeats [1]).2.bookSeats [1]).1 = false :=
  ⟨rfl, rfl⟩

/-- C9 amended: the exclusive lock makes each `bookSeats` call an atomic
check-then-set, so a concurrent pair serializes in lock-acquisition
order; when each call's seat set would individually succeed against the
initial ledger and the sets overlap, the call that acquires the lock
second fails — in both orders exactly one of the two succeeds. -/
theorem reserve_serialization (sh : Server.Shows) (S1 S2 : List Nat) (s : Nat)
    (hs1 : s ∈ S1) (hs2 : s ∈ S2)
    (h1 : (sh.bookSeats S1).1 = true) (h2 : (sh.bookSeats S2).1 = true) :
    ((sh.bookSeats S1).2.bookSeats S2).1 = false
    ∧ ((sh.bookSeats S2).2.bookSeats S1).1 = false := by
  have key : ∀ T U : List Nat, s ∈ T → s ∈ U →
      (sh.bookSeats T).1 = true → ((sh.bookSeats T).2.bookSeats U).1 = false := by
    intro T U hsT hsU hT
    by_contra hcon
    have htrue : ((sh.bookSeats T).2.bookSeats U).1 = true := by
      cases hb : ((sh.bookSeats T).2.bookSeats U).1 with
      | false => exact absurd hb hcon
      | true => rfl
    have hitem := (bookSeats_true_iff _ U).1 htrue s hsU
    have hsvalid := (bookSeats_true_iff _ T).1 hT s hsT
    have hset := bookSeats_success_getD sh T hT (s - 1)
    have hs' : s - 1 + 1 = s := by omega
    rw [hs', hitem.2.2] at hset
    simp [hsT] at hset
  exact ⟨key S1 S2 hs1 hs2 h1, key S2 S1 hs2 hs1 h2⟩

theorem reserve_serialization_witness :
    ((sh0.bookSeats [1, 2]).2.bookSeats [2, 3]).1 = false
    ∧ ((sh0.bookSeats [2, 3]).2.bookSeats [1, 2]).1 = false :=
  reserve_serialization sh0 [1, 2] [2, 3] 2 (by decide) (by decide) (by decide) (by decide)

/-! ### Round-trip support: line splitting -/

theorem splitCh_append (d : Char) (l rest : Str) (hd : d ∉ l) :
    splitCh d (l ++ d :: rest) = l :: splitCh d rest := by
  induction l with
  | nil =>
    show splitCh d (d :: rest) = [] :: splitCh d rest
    rw [splitCh, if_pos rfl]
  | cons c l' ih =>
    have hcd : ¬ c = d := fun h => hd (by simp [h])
    show splitCh d (c :: (l' ++ d :: rest)) = (c :: l') :: splitCh d rest
    rw [splitCh, if_neg hcd, ih (fun h => hd (List.mem_cons_of_mem c h))]

theorem splitCh_linesJoin (ls : List Str) (h : ∀ l ∈ ls, '\n' ∉ l) :
    splitCh '\n' (linesJoin ls) = ls ++ [[]] := by
  induction ls with
  | nil => rfl
  | cons l rest ih =>
    rw [linesJoin_cons, splitCh_append '\n' l _ (h l (by simp)),
      ih (fun x hx => h x (by simp [hx])), List.cons_append]

theorem linesJoin_ne_nil (ls : List Str) (h : ls ≠ []) : linesJoin ls ≠ [] := by
  cases ls with
  | nil => exact absurd rfl h
  | cons l rest =>
    rw [linesJoin_cons]
    exact List.append_ne_nil_of_right_ne_nil _ (by simp)

theorem linesJoin_getLast (ls : List Str) (h : ls ≠ []) :
    (linesJoin ls).getLast? = some '\n' := by
  induction ls with
  | nil => exact absurd rfl h
  | cons l rest ih =>
    rw [linesJoin_cons, List.getLast?_append]
    cases hrest : rest with
    | nil => rfl
    | cons l2 rest2 =>
      have h2 : (linesJoin rest).getLast? = some '\n' := ih (by rw [hrest]; simp)
      have h3 : ('\n' :: linesJoin rest).getLast? = some '\n' := by
        cases hlj : linesJoin rest with
        | nil => rfl
        | cons c cs =>
          rw [hlj] at h2
          rw [List.getLast?_cons_cons, h2]
      rw [← hrest, h3]
      rfl

theorem getlineSplit_linesJoin (ls : List Str) (hne : ls ≠ [])
    (h : ∀ l ∈ ls, '\n' ∉ l) :
    getlineSplit '\n' (linesJoin ls) = ls := by
  unfold getlineSplit
  rw [if_neg (linesJoin_ne_nil ls hne), linesJoin_getLast ls hne, if_pos rfl,
    splitCh_linesJoin ls h, List.dropLast_concat]

/-! ### Round-trip support: character and token facts -/

theorem natStr_facts :
    ∀ i : Fin 21, natStr i.1 ≠ []
      ∧ ∀ c ∈ natStr i.1, isCppSpace c = false ∧ c ≠ ',' ∧ c ≠ '(' ∧ c ≠ ')'
          ∧ c ≠ '\n' ∧ c ≠ ':' := by
  decide

theorem stoi_natStr : ∀ i : Fin 21, stoi (natStr i.1) = .ok (i.1 : Int) := by
  decide

theorem isPrefixOf_cons₂ (a b : Char) (as bs : Str) :
    (a :: as).isPrefixOf (b :: bs) = ((a == b) && as.isPrefixOf bs) := rfl

/-! ### Round-trip support: substring-search positions -/

theorem findSub_prefix_free (hd : Char) (tl a b : Str) (hhead : hd ∉ a) :
    findSub (hd :: tl) (a ++ ((hd :: tl) ++ b)) = some a.length := by
  induction a with
  | nil =>
    rw [List.nil_append, List.cons_append, findSub_cons,
      if_pos (by rw [← List.cons_append]; exact isPrefixOf_append_self (hd :: tl) b)]
    rfl
  | cons c a' ih =>
    rw [List.cons_append, findSub_cons]
    have hfalse : (hd :: tl).isPrefixOf (c :: (a' ++ ((hd :: tl) ++ b))) = false := by
      rw [isPrefixOf_cons₂,
        beq_eq_false_iff_ne.2 (fun h => hhead (by simp [h])), Bool.false_and]
    rw [if_neg (by rw [hfalse]; simp), ih (fun h => hhead (List.mem_cons_of_mem c h))]
    rfl

theorem findSub_space_paren (m r : Str) (hm : '(' ∉ m) :
    findSub (strOf " (") (m ++ (' ' :: '(' :: r)) = some m.length := by
  induction m with
  | nil =>
    have hpre : (strOf " (").isPrefixOf (' ' :: '(' :: r) = true := by
      have hshape : strOf " (" = ' ' :: ['('] := rfl
      rw [hshape, isPrefixOf_cons₂, isPrefixOf_cons₂]
      simp [List.isPrefixOf]
    rw [List.nil_append, findSub_cons, if_pos hpre]
    rfl
  | cons c m' ih =>
    rw [List.cons_append, findSub_cons]
    have hfalse : (strOf " (").isPrefixOf (c :: (m' ++ (' ' :: '(' :: r))) = false := by
      have hshape : strOf " (" = ' ' :: ['('] := rfl
      rw [hshape, isPrefixOf_cons₂]
      by_cases hc : (' ' == c) = true
      · rw [hc, Bool.true_and]
        cases m' with
        | nil => rfl
        | cons d m'' =>
          rw [List.cons_append, isPrefixOf_cons₂,
            beq_eq_false_iff_ne.2
              (fun h => hm (by exact List.mem_cons_of_mem c (h ▸ List.mem_cons_self d m''))),
            Bool.false_and]
      · rw [Bool.not_eq_true] at hc
        rw [hc, Bool.false_and]
    rw [if_neg (by rw [hfalse]; simp), ih (fun h => hm (List.mem_cons_of_mem c h))]
    rfl

/-! ### Round-trip support: whitespace tokenisation -/

theorem wsTokensGo_cons (c : Char) (cs acc : Str) :
    wsTokensGo (c :: cs) acc
      = if isCppSpace c then
          (if acc.isEmpty then wsTokensGo cs [] else acc.reverse :: wsTokensGo cs [])
        else wsTokensGo cs (c :: acc) := by
  rw [wsTokensGo]

theorem wsTokensGo_nonspace (w rest acc : Str) (hw : ∀ c ∈ w, isCppSpace c = false) :
    wsTokensGo (w ++ rest) acc = wsTokensGo rest (w.reverse ++ acc) := by
  induction w generalizing acc with
  | nil => simp
  | cons c w' ih =>
    rw [List.cons_append, wsTokensGo_cons, hw c (by simp), if_neg (by simp)]
    rw [ih (c :: acc) (fun x hx => hw x (List.mem_cons_of_mem c hx))]
    have hacc : (c :: w').reverse ++ acc = w'.reverse ++ (c :: acc) := by
      simp
    rw [hacc]

theorem wsTokensGo_space (c : Char) (cs acc : Str) (hc : isCppSpace c = true) :
    wsTokensGo (c :: cs) acc
      = if acc.isEmpty then wsTokensGo cs [] else acc.reverse :: wsTokensGo cs [] := by
  rw [wsTokensGo_cons, hc, if_pos rfl]

theorem natStr_nonspace (n : Nat) (h : n ≤ 20) : ∀ c ∈ natStr n, isCppSpace c = false :=
  fun c hc => ((natStr_facts ⟨n, by omega⟩).2 c hc).1

theorem natStr_ne_nil (n : Nat) (h : n ≤ 20) : natStr n ≠ [] :=
  (natStr_facts ⟨n, by omega⟩).1

theorem wsTokensGo_seatBody (ns : List Nat) (h20 : ∀ n ∈ ns, n ≤ 20) (hne : ns ≠ []) :
    wsTokensGo (joinSep (strOf ", ") (ns.map natStr) ++ [' ']) [] = commaTokens ns := by
  induction ns with
  | nil => exact absurd rfl hne
  | cons n rest ih =>
    cases rest with
    | nil =>
      show wsTokensGo (natStr n ++ [' ']) [] = commaTokens [n]
      rw [wsTokensGo_nonspace (natStr n) [' '] [] (natStr_nonspace n (h20 n (by simp)))]
      rw [wsTokensGo_space ' ' [] _ (by rfl)]
      rw [if_neg (by simp [natStr_ne_nil n (h20 n (by simp))])]
      simp [wsTokensGo, commaTokens]
    | cons m rest2 =>
      have hre : joinSep (strOf ", ") (((n :: m :: rest2).map natStr)) ++ [' ']
          = (natStr n ++ [',']) ++ (' ' ::
              (joinSep (strOf ", ") ((m :: rest2).map natStr) ++ [' '])) := by
        show (natStr n ++ strOf ", "
            ++ joinSep (strOf ", ") ((m :: rest2).map natStr)) ++ [' '] = _
        simp [strOf]
      rw [hre]
      rw [wsTokensGo_nonspace (natStr n ++ [',']) _ []
        (by
          intro c hc
          rcases List.mem_append.1 hc with h1 | h1
          · exact natStr_nonspace n (h20 n (by simp)) c h1
          · rw [List.mem_singleton.1 h1]; rfl)]
      rw [wsTokensGo_space ' ' _ _ (by rfl)]
      rw [if_neg (by simp [natStr_ne_nil n (h20 n (by simp))])]
      rw [ih (fun x hx => h20 x (by simp [hx])) (by simp)]
      have hacc : ((natStr n ++ [',']).reverse ++ ([] : Str)).reverse = natStr n ++ [','] := by
        simp
      rw [hacc]
      rfl

/-! ### Round-trip support: the seat-status bitmap -/

theorem stoi_natStr20 (n : Nat) (h : n ≤ 20) : stoi (natStr n) = .ok (n : Int) := by
  simpa using stoi_natStr ⟨n, by omega⟩

theorem seatTokStep_natStr (n : Nat) (bs : List Bool) (h1 : 1 ≤ n) (h2 : n ≤ 20) :
    CinemaClient.seatTokStep bs (natStr n) = bs.set (n - 1) false := by
  have hfacts := natStr_facts ⟨n, by omega⟩
  simp only [Fin.val_mk] at hfacts
  unfold CinemaClient.seatTokStep
  rw [if_neg (by
    rintro ⟨hn, hl⟩
    exact ((hfacts.2 ',' (List.mem_of_mem_getLast? hl)).2.1) rfl)]
  simp only [stoi_natStr20 n h2]
  rw [if_pos (by constructor <;> [exact_mod_cast h1; exact_mod_cast h2])]
  simp

theorem seatTokStep_comma (n : Nat) (bs : List Bool) (h1 : 1 ≤ n) (h2 : n ≤ 20) :
    CinemaClient.seatTokStep bs (natStr n ++ [',']) = bs.set (n - 1) false := by
  unfold CinemaClient.seatTokStep
  rw [if_pos (by
    constructor
    · simp
    · exact List.getLast?_concat _)]
  rw [List.dropLast_concat]
  simp only [stoi_natStr20 n h2]
  rw [if_pos (by constructor <;> [exact_mod_cast h1; exact_mod_cast h2])]
  simp

theorem foldl_commaTokens (ns : List Nat) (bs : List Bool)
    (h : ∀ n ∈ ns, 1 ≤ n ∧ n ≤ 20) :
    (commaTokens ns).foldl CinemaClient.seatTokStep bs
      = ns.foldl (fun b n => b.set (n - 1) false) bs := by
  induction ns generalizing bs with
  | nil => rfl
  | cons n rest ih =>
    cases rest with
    | nil =>
      show CinemaClient.seatTokStep bs (natStr n) = bs.set (n - 1) false
      exact seatTokStep_natStr n bs (h n (by simp)).1 (h n (by simp)).2
    | cons m rest2 =>
      show (commaTokens (m :: rest2)).foldl CinemaClient.seatTokStep
          (CinemaClient.seatTokStep bs (natStr n ++ [','])) = _
      rw [seatTokStep_comma n bs (h n (by simp)).1 (h n (by simp)).2,
        ih _ (fun x hx => h x (by simp [hx]))]
      rfl

theorem foldl_clear_length (ns : List Nat) (bs : List Bool) :
    (ns.foldl (fun b n => b.set (n - 1) false) bs).length = bs.length := by
  induction ns generalizing bs with
  | nil => rfl
  | cons n rest ih => simp [ih, List.length_set]

theorem foldl_clear_getD (ns : List Nat) (bs : List Bool) (j : Nat)
    (hns : ∀ n ∈ ns, 1 ≤ n ∧ n ≤ bs.length) :
    (ns.foldl (fun b n => b.set (n - 1) false) bs).getD j true
      = if (j + 1) ∈ ns then false else bs.getD j true := by
  induction ns generalizing bs with
  | nil => simp
  | cons n rest ih =>
    obtain ⟨hn1, hn2⟩ := hns n (by simp)
    rw [List.foldl_cons,
      ih _ (fun x hx => by simpa [List.length_set] using hns x (by simp [hx]))]
    by_cases hj : n - 1 = j
    · have hmem : j + 1 ∈ n :: rest := by
        have hn : n = j + 1 := by omega
        simp [hn]
      rw [if_pos hmem]
      by_cases hjr : (j + 1) ∈ rest
      · rw [if_pos hjr]
      · rw [if_neg hjr, List.getD_eq_getElem?_getD, List.getElem?_set, if_pos hj,
          if_pos (by omega)]
        rfl
    · have hne2 : ¬(j + 1 = n) := by omega
      have hmem : ((j + 1) ∈ n :: rest) ↔ ((j + 1) ∈ rest) := by
        simp [List.mem_cons, hne2]
      have hgd : (bs.set (n - 1) false).getD j true = bs.getD j true := by
        rw [List.getD_eq_getElem?_getD, List.getElem?_set, if_neg hj,
          ← List.getD_eq_getElem?_getD]
      by_cases hjr : (j + 1) ∈ rest
      · rw [if_pos hjr, if_pos (hmem.2 hjr)]
      · rw [if_neg hjr, if_neg (fun hx => hjr (hmem.1 hx)), hgd]

theorem availList_mem (seats : List Bool) (j : Nat) :
    (j + 1) ∈ availList seats ↔ j < seats.length ∧ seats.getD j true = false := by
  unfold availList
  rw [List.mem_filterMap]
  constructor
  · rintro ⟨i, hi, hopt⟩
    rw [List.mem_range] at hi
    by_cases hs : seats.getD i true = true
    · rw [if_pos hs] at hopt
      simp at hopt
    · rw [if_neg hs] at hopt
      have hij : i = j := by
        have := Option.some.inj hopt
        omega
      subst hij
      exact ⟨hi, by simpa using hs⟩
  · rintro ⟨hj, hs⟩
    exact ⟨j, List.mem_range.2 hj, by rw [if_neg (by rw [hs]; simp)]⟩

theorem availList_bounds (seats : List Bool) :
    ∀ n ∈ availList seats, 1 ≤ n ∧ n ≤ seats.length := by
  intro n hn
  unfold availList at hn
  rw [List.mem_filterMap] at hn
  obtain ⟨i, hi, hopt⟩ := hn
  rw [List.mem_range] at hi
  by_cases hs : seats.getD i true = true
  · rw [if_pos hs] at hopt
    simp at hopt
  · rw [if_neg hs] at hopt
    have := Option.some.inj hopt
    omega

theorem availList_length_le (seats : List Bool) :
    (availList seats).length ≤ seats.length := by
  unfold availList
  calc (List.filterMap _ (List.range seats.length)).length
      ≤ (List.range seats.length).length := List.length_filterMap_le _ _
    _ = seats.length := List.length_range seats.length

theorem seatStatusOf_availList (seats : List Bool) (hlen : seats.length = 20) :
    CinemaClient.seatStatusOf (wsTokens (' ' :: Server.seatsBody (availList seats) ++ [' ']))
      = seats := by
  by_cases hav : (availList seats).isEmpty = true
  · have hav' : availList seats = [] := by simpa using hav
    rw [hav']
    have hconc : CinemaClient.seatStatusOf
        (wsTokens (' ' :: Server.seatsBody [] ++ [' '])) = List.replicate 20 true := by
      decide
    rw [hconc]
    apply List.ext_getElem (by simp [hlen])
    intro i h1 h2
    have hi : i < 20 := by simpa using h1
    by_cases hs : seats.getD i true = false
    · exfalso
      have hmem : (i + 1) ∈ availList seats := (availList_mem seats i).2 ⟨by omega, hs⟩
      rw [hav'] at hmem
      simp at hmem
    · have hs' : seats[i] = true := by
        cases hx : seats.getD i true with
        | false => exact absurd hx hs
        | true =>
          rw [List.getD_eq_getElem _ _ (by omega)] at hx
          exact hx
      rw [hs']
      exact List.getElem_replicate true h1
  · have hne : availList seats ≠ [] := by
      intro h
      rw [h] at hav
      exact hav rfl
    have hbody : Server.seatsBody (availList seats)
        = joinSep (strOf ", ") ((availList seats).map natStr) := by
      unfold Server.seatsBody
      rw [if_neg (by simp [hav])]
    rw [hbody]
    have hb20 : ∀ n ∈ availList seats, n ≤ 20 := by
      intro n hn
      have := (availList_bounds seats n hn).2
      omega
    have htoks : wsTokens (' ' :: joinSep (strOf ", ") ((availList seats).map natStr) ++ [' '])
        = commaTokens (availList seats) := by
      unfold wsTokens
      rw [List.cons_append]
      rw [wsTokensGo_space ' '
        (joinSep (strOf ", ") ((availList seats).map natStr) ++ [' ']) [] (by decide)]
      rw [if_pos (show (List.isEmpty ([] : Str)) = true from rfl)]
      exact wsTokensGo_seatBody (availList seats) hb20 hne
    rw [htoks]
    unfold CinemaClient.seatStatusOf
    rw [foldl_commaTokens _ _ (fun n hn =>
      ⟨(availList_bounds seats n hn).1, hb20 n hn⟩)]
    apply List.ext_getElem (by rw [foldl_clear_length]; simp [hlen])
    intro i h1 h2
    have hi : i < 20 := by
      rw [foldl_clear_length] at h1
      simpa using h1
    have hgd := foldl_clear_getD (availList seats) (List.replicate 20 true) i
      (fun n hn => ⟨(availList_bounds seats n hn).1, by
        have := (availList_bounds seats n hn).2
        simp [hlen] at this ⊢
        omega⟩)
    rw [List.getD_eq_getElem _ _ h1] at hgd
    rw [hgd]
    by_cases hmem : (i + 1) ∈ availList seats
    · rw [if_pos hmem]
      have hs := ((availList_mem seats i).1 hmem).2
      rw [List.getD_eq_getElem _ _ (by omega)] at hs
      exact hs.symm
    · rw [if_neg hmem]
      have hs' : seats[i] = true := by
        cases hx : seats.getD i true with
        | false =>
          exact absurd ((availList_mem seats i).2 ⟨by omega, hx⟩) hmem
        | true =>
          rw [List.getD_eq_getElem _ _ (by omega)] at hx
          exact hx
      rw [hs']
      rw [List.getD_eq_getElem _ _ (by simpa using hi), List.getElem_replicate]

/-! ### Round-trip support: line classification -/

theorem parseLine_skip (st : CinemaClient.ParseState) (line : Str)
    (h1 : CinemaClient.theaterTag.isPrefixOf line = false)
    (h2 : CinemaClient.movieTag.isPrefixOf line = false)
    (h3 : containsSub CinemaClient.seatsTag line = false) :
    CinemaClient.parseLine st line = st := by
  unfold CinemaClient.parseLine
  rw [h1, h2, h3]
  simp

theorem parseLine_header (st : CinemaClient.ParseState) :
    CinemaClient.parseLine st (strOf "=== CINEMA DATA STREAM ===") = st :=
  parseLine_skip st _ (by decide) (by decide) (by decide)

theorem parseLine_footer (st : CinemaClient.ParseState) :
    CinemaClient.parseLine st (strOf "=== END CINEMA DATA ===") = st :=
  parseLine_skip st _ (by decide) (by decide) (by decide)

theorem parseLine_blank (st : CinemaClient.ParseState) :
    CinemaClient.parseLine st [] = st :=
  parseLine_skip st _ (by decide) (by decide) (by decide)

theorem theaterTag_not_movie (rest : Str) :
    CinemaClient.theaterTag.isPrefixOf (strOf "  Movie: " ++ rest) = false := by
  rw [show CinemaClient.theaterTag = 'T' :: strOf "heater: " from rfl,
    show strOf "  Movie: " ++ rest = ' ' :: (strOf " Movie: " ++ rest) from rfl,
    isPrefixOf_cons₂, beq_eq_false_iff_ne.2 (by decide), Bool.false_and]

theorem parseLine_movie (st : CinemaClient.ParseState) (m dt : Str)
    (hthea : st.currentTheater ≠ [])
    (hm1 : '(' ∉ m) (hm2 : ')' ∉ m) (hd1 : dt ≠ []) (hd2 : ')' ∉ dt) :
    CinemaClient.parseLine st (strOf "  Movie: " ++ m ++ strOf " (" ++ dt ++ strOf ")")
      = { st with
          hasCurrent := true,
          shows := st.shows ++ [Client.Shows.mk20 m dt st.currentTheater] } := by
  have hline : strOf "  Movie: " ++ m ++ strOf " (" ++ dt ++ strOf ")"
      = strOf "  Movie: " ++ (m ++ (' ' :: '(' :: (dt ++ [')']))) := by
    rw [show strOf " (" = ' ' :: ['('] from rfl, show strOf ")" = [')'] from rfl]
    simp [List.append_assoc]
  rw [hline]
  unfold CinemaClient.parseLine
  rw [theaterTag_not_movie,
    show CinemaClient.movieTag = strOf "  Movie: " from rfl,
    isPrefixOf_append_self (strOf "  Movie: ") (m ++ (' ' :: '(' :: (dt ++ [')'])))]
  have hempty : st.currentTheater.isEmpty = false := by
    cases hx : st.currentTheater with
    | nil => exact absurd hx hthea
    | cons a b => rfl
  rw [hempty, if_neg (by simp), if_pos (by rfl),
    List.drop_left' (show (strOf "  Movie: ").length = 9 from rfl)]
  have hfind1 : findSub (strOf "(") (m ++ (' ' :: '(' :: (dt ++ [')'])))
      = some (m.length + 1) := by
    have hshape : m ++ (' ' :: '(' :: (dt ++ [')']))
        = (m ++ [' ']) ++ (('(' :: []) ++ (dt ++ [')'])) := by
      simp
    rw [show strOf "(" = '(' :: [] from rfl, hshape,
      findSub_prefix_free '(' [] (m ++ [' ']) (dt ++ [')'])
        (by
          intro h
          rcases List.mem_append.1 h with h | h
          · exact hm1 h
          · simp at h)]
    simp
  have hfind2 : findSub (strOf ")") (m ++ (' ' :: '(' :: (dt ++ [')'])))
      = some (m.length + dt.length + 2) := by
    have hshape : m ++ (' ' :: '(' :: (dt ++ [')']))
        = (m ++ (' ' :: '(' :: dt)) ++ ((')' :: []) ++ []) := by
      simp
    rw [show strOf ")" = ')' :: [] from rfl, hshape,
      findSub_prefix_free ')' [] (m ++ (' ' :: '(' :: dt)) []
        (by
          intro h
          rcases List.mem_append.1 h with h | h
          · exact hm2 h
          · rcases List.mem_cons.1 h with h | h
            · exact (by decide : (')' : Char) ≠ ' ') h
            · rcases List.mem_cons.1 h with h | h
              · exact (by decide : (')' : Char) ≠ '(') h
              · exact hd2 h)]
    simp [List.length_append]
    omega
  simp only [findSub_space_paren m (dt ++ [')']) hm1, hfind1, hfind2]
  rw [if_pos (by have := List.length_pos.2 hd1; omega)]
  rw [List.take_left' rfl]
  have hdrop : (m ++ (' ' :: '(' :: (dt ++ [')']))).drop (m.length + 1 + 1) = dt ++ [')'] := by
    have hshape : m ++ (' ' :: '(' :: (dt ++ [')']))
        = (m ++ [' ', '(']) ++ (dt ++ [')']) := by
      simp
    rw [hshape, List.drop_left' (by simp)]
  rw [hdrop]
  have harith : m.length + dt.length + 2 - (m.length + 1 + 1) = dt.length := by
    omega
  rw [harith, List.take_left' rfl]

theorem theaterTag_not_seats (rest : Str) :
    CinemaClient.theaterTag.isPrefixOf (strOf "    Available seats: " ++ rest) = false := by
  rw [show CinemaClient.theaterTag = 'T' :: strOf "heater: " from rfl,
    show strOf "    Available seats: " ++ rest
      = ' ' :: (strOf "   Available seats: " ++ rest) from rfl,
    isPrefixOf_cons₂, beq_eq_false_iff_ne.2 (by decide), Bool.false_and]

theorem movieTag_not_seats (rest : Str) :
    CinemaClient.movieTag.isPrefixOf (strOf "    Available seats: " ++ rest) = false := by
  rw [show CinemaClient.movieTag = ' ' :: ' ' :: 'M' :: strOf "ovie: " from rfl,
    show strOf "    Available seats: " ++ rest
      = ' ' :: ' ' :: ' ' :: (strOf " Available seats: " ++ rest) from rfl,
    isPrefixOf_cons₂, isPrefixOf_cons₂, isPrefixOf_cons₂,
    show ('M' == ' ') = false from by decide, Bool.false_and, Bool.and_false,
    Bool.and_false]

theorem seatsTag_contains (rest : Str) :
    containsSub CinemaClient.seatsTag (strOf "    Available seats: " ++ rest) = true := by
  have hshape : strOf "    Available seats: " ++ rest
      = CinemaClient.seatsTag ++ ([' '] ++ rest) := by
    rw [show strOf "    Available seats: " = CinemaClient.seatsTag ++ [' '] from rfl]
    simp
  rw [hshape, containsSub]
  exact findSub_isSome_of_isPrefixOf _ _ (isPrefixOf_append_self _ _)

theorem parseLine_seats (st : CinemaClient.ParseState) (sb rest2 : Str)
    (hcur : st.hasCurrent = true) (hsb : '(' ∉ sb) :
    CinemaClient.parseLine st
        (strOf "    Available seats: " ++ sb ++ strOf " (Total: " ++ rest2)
      = { st with
            shows := CinemaClient.updateLastShow st.shows
              (CinemaClient.seatStatusOf (wsTokens ((' ' :: sb) ++ [' ']))) } := by
  have hline : strOf "    Available seats: " ++ sb ++ strOf " (Total: " ++ rest2
      = strOf "    Available seats: " ++ (sb ++ (' ' :: (strOf "(Total:" ++ (' ' :: rest2)))) := by
    rw [show strOf " (Total: " = ' ' :: (strOf "(Total:" ++ [' ']) from rfl]
    simp [List.append_assoc]
  rw [hline]
  unfold CinemaClient.parseLine
  rw [theaterTag_not_seats, movieTag_not_seats, seatsTag_contains, hcur]
  rw [if_neg (by simp), if_neg (by simp), if_pos (by rfl)]
  have hcolon : findSub (strOf ":")
      (strOf "    Available seats: " ++ (sb ++ (' ' :: (strOf "(Total:" ++ (' ' :: rest2)))))
      = some 19 := by
    have hshape : strOf "    Available seats: "
          ++ (sb ++ (' ' :: (strOf "(Total:" ++ (' ' :: rest2))))
        = strOf "    Available seats"
          ++ ((':' :: []) ++ (' ' :: (sb ++ (' ' :: (strOf "(Total:" ++ (' ' :: rest2)))))) := by
      rw [show strOf "    Available seats: "
          = strOf "    Available seats" ++ [':', ' '] from rfl]
      simp
    rw [show strOf ":" = ':' :: [] from rfl, hshape,
      findSub_prefix_free ':' [] (strOf "    Available seats") _ (by decide)]
    rfl
  simp only [hcolon]
  have hdrop : (strOf "    Available seats: "
        ++ (sb ++ (' ' :: (strOf "(Total:" ++ (' ' :: rest2))))).drop (19 + 1)
      = ((' ' :: sb) ++ [' ']) ++ (strOf "(Total:" ++ (' ' :: rest2)) := by
    have hshape : strOf "    Available seats: "
          ++ (sb ++ (' ' :: (strOf "(Total:" ++ (' ' :: rest2))))
        = strOf "    Available seats:"
          ++ (((' ' :: sb) ++ [' ']) ++ (strOf "(Total:" ++ (' ' :: rest2))) := by
      rw [show strOf "    Available seats: " = strOf "    Available seats:" ++ [' '] from rfl]
      simp
    rw [hshape, List.drop_left' (by decide)]
  rw [hdrop]
  have htotal : findSub (strOf "(Total:")
      (((' ' :: sb) ++ [' ']) ++ (strOf "(Total:" ++ (' ' :: rest2)))
      = some ((' ' :: sb) ++ [' ' ] : Str).length := by
    rw [show strOf "(Total:" = '(' :: strOf "Total:" from rfl]
    exact findSub_prefix_free '(' (strOf "Total:") ((' ' :: sb) ++ [' ']) (' ' :: rest2)
      (by
        intro h
        rcases List.mem_append.1 h with h | h
        · rcases List.mem_cons.1 h with h | h
          · exact (by decide : ('(' : Char) ≠ ' ') h
          · exact hsb h
        · rcases List.mem_cons.1 h with h | h
          · exact (by decide : ('(' : Char) ≠ ' ') h
          · simp at h)
  simp only [htotal]
  rw [List.take_left]

theorem parseLine_theater (st : CinemaClient.ParseState) (t : Str) :
    CinemaClient.parseLine st (strOf "Theater: " ++ t)
      = { st with currentTheater := t, hasCurrent := false } := by
  unfold CinemaClient.parseLine
  rw [show CinemaClient.theaterTag = strOf "Theater: " from rfl,
    isPrefixOf_append_self (strOf "Theater: ") t, if_pos rfl,
    List.drop_left' (show (strOf "Theater: ").length = 9 from rfl)]

/-! ### Round-trip support: per-show and per-block parsing -/

theorem updateLastShow_append (xs : List Client.Shows) (y : Client.Shows) (v : List Bool) :
    CinemaClient.updateLastShow (xs ++ [y]) v = xs ++ [y.updateSeatAvailability v] := by
  induction xs with
  | nil => rfl
  | cons a xs' ih =>
    cases xs' with
    | nil => rfl
    | cons b xs'' =>
      show a :: CinemaClient.updateLastShow ((b :: xs'') ++ [y]) v = _
      rw [ih]
      rfl

theorem joinSep_chars (sep : Str) (xs : List Str) (c : Char) (hc : c ∈ joinSep sep xs) :
    c ∈ sep ∨ ∃ x ∈ xs, c ∈ x := by
  induction xs with
  | nil => simp [joinSep] at hc
  | cons x rest ih =>
    cases rest with
    | nil =>
      rw [joinSep] at hc
      exact Or.inr ⟨x, by simp, hc⟩
    | cons y rest2 =>
      rw [joinSep] at hc
      rcases List.mem_append.1 hc with h | h
      · rcases List.mem_append.1 h with h | h
        · exact Or.inr ⟨x, by simp, h⟩
        · exact Or.inl h
      · rcases ih h with h | h
        · exact Or.inl h
        · obtain ⟨z, hz, hcz⟩ := h
          exact Or.inr ⟨z, by simp [hz], hcz⟩

theorem seatsBody_chars (avail : List Nat) (h20 : ∀ n ∈ avail, n ≤ 20) :
    ∀ c ∈ Server.seatsBody avail, c ≠ '(' ∧ c ≠ '\n' := by
  intro c hc
  unfold Server.seatsBody at hc
  split at hc
  · have : c = 'S' ∨ c = 'O' ∨ c = 'L' ∨ c = 'D' ∨ c = ' ' ∨ c = 'U' ∨ c = 'T' := by
      have hx : c ∈ strOf "SOLD OUT" := hc
      rw [show strOf "SOLD OUT"
        = ['S', 'O', 'L', 'D', ' ', 'O', 'U', 'T'] from rfl] at hx
      simp at hx
      tauto
    rcases this with rfl | rfl | rfl | rfl | rfl | rfl | rfl <;> exact ⟨by decide, by decide⟩
  · rcases joinSep_chars _ _ c hc with h | h
    · rw [show strOf ", " = [',', ' '] from rfl] at h
      rcases List.mem_cons.1 h with rfl | h
      · exact ⟨by decide, by decide⟩
      · rcases List.mem_cons.1 h with rfl | h
        · exact ⟨by decide, by decide⟩
        · simp at h
    · obtain ⟨x, hx, hcx⟩ := h
      rw [List.mem_map] at hx
      obtain ⟨n, hn, rfl⟩ := hx
      have hf := (natStr_facts ⟨n, by have := h20 n hn; omega⟩).2 c (by simpa using hcx)
      exact ⟨hf.2.2.1, hf.2.2.2.2.1⟩

theorem parse_showLines (st : CinemaClient.ParseState) (sh : Server.Shows)
    (hthea : st.currentTheater = sh.theater) (hwf : wfShow sh) :
    (Server.showLines sh).foldl CinemaClient.parseLine st
      = { st with hasCurrent := true, shows := st.shows ++ [reconstruct sh] } := by
  obtain ⟨ht1, ht2, hmn, hm1, hm2, hd1, hdn, hd2, hlen⟩ := hwf
  have havail : ∀ n ∈ availList sh.seats, n ≤ 20 := by
    intro n hn
    have := (availList_bounds sh.seats n hn).2
    omega
  unfold Server.showLines
  rw [List.foldl_cons, List.foldl_cons, List.foldl_nil]
  rw [parseLine_movie st sh.movie sh.dateTime (by rw [hthea]; exact ht1) hm1 hm2 hd1 hd2]
  have hL2 : strOf "    Available seats: " ++ Server.seatsBody sh.getAvailableSeats
        ++ strOf " (Total: " ++ natStr sh.getAvailableSeats.length ++ strOf "/20)"
      = strOf "    Available seats: " ++ Server.seatsBody (availList sh.seats)
        ++ strOf " (Total: "
        ++ (natStr (availList sh.seats).length ++ strOf "/20)") := by
    rw [Server.Shows.getAvailableSeats]
    simp [List.append_assoc]
  rw [hL2]
  rw [parseLine_seats _ (Server.seatsBody (availList sh.seats)) _ rfl
    (fun h => ((seatsBody_chars (availList sh.seats) havail) '(' h).1 rfl)]
  rw [updateLastShow_append]
  have hupd : (Client.Shows.mk20 sh.movie sh.dateTime st.currentTheater).updateSeatAvailability
      (CinemaClient.seatStatusOf (wsTokens ((' ' :: Server.seatsBody (availList sh.seats)) ++ [' '])))
      = reconstruct sh := by
    rw [seatStatusOf_availList sh.seats hlen]
    unfold Client.Shows.updateSeatAvailability Client.Shows.mk20
    rw [if_pos (by simp [hlen])]
    unfold reconstruct
    simp [hthea]
  rw [hupd]

theorem parse_theaterShows (L : List Server.Shows) (t : Str) (st : CinemaClient.ParseState)
    (hL : ∀ sh ∈ L, sh.theater = t ∧ wfShow sh)
    (hst : st.currentTheater = t) :
    (L.flatMap Server.showLines).foldl CinemaClient.parseLine st
      = { st with
          hasCurrent := if L.isEmpty then st.hasCurrent else true,
          shows := st.shows ++ L.map reconstruct } := by
  induction L generalizing st with
  | nil => simp
  | cons sh rest ih =>
    rw [List.flatMap_cons, List.foldl_append]
    rw [parse_showLines st sh (by rw [hst, (hL sh (by simp)).1]) (hL sh (by simp)).2]
    rw [ih _ (fun x hx => hL x (List.mem_cons_of_mem sh hx)) (by simp [hst])]
    simp

theorem parse_theaterBlock (shows : List Server.Shows) (t : Str)
    (st : CinemaClient.ParseState)
    (hwf : ∀ sh ∈ shows, wfShow sh) :
    (Server.theaterBlock shows t).foldl CinemaClient.parseLine st
      = { currentTheater := t,
          hasCurrent := if (shows.filter (fun sh => sh.theater == t)).isEmpty then false
            else true,
          shows := st.shows
            ++ (shows.filter (fun sh => sh.theater == t)).map reconstruct } := by
  unfold Server.theaterBlock
  rw [List.foldl_append]
  have h1 : List.foldl CinemaClient.parseLine st
      ((strOf "Theater: " ++ t)
        :: (shows.filter (fun sh => sh.theater == t)).flatMap Server.showLines)
      = { currentTheater := t,
          hasCurrent := if (shows.filter (fun sh => sh.theater == t)).isEmpty then false
            else true,
          shows := st.shows
            ++ (shows.filter (fun sh => sh.theater == t)).map reconstruct } := by
    rw [List.foldl_cons, parseLine_theater st t]
    rw [parse_theaterShows (shows.filter (fun sh => sh.theater == t)) t _
      (fun x hx => ⟨by simpa using (List.mem_filter.1 hx).2, hwf x (List.mem_filter.1 hx).1⟩)
      rfl]
  rw [h1, List.foldl_cons, List.foldl_nil, parseLine_blank]

theorem parse_blocks (shows : List Server.Shows) (ts : List Str)
    (st : CinemaClient.ParseState)
    (hwf : ∀ sh ∈ shows, wfShow sh) :
    ((ts.flatMap (Server.theaterBlock shows)).foldl CinemaClient.parseLine st).shows
      = st.shows ++ (ts.flatMap (fun t =>
          shows.filter (fun sh => sh.theater == t))).map reconstruct := by
  induction ts generalizing st with
  | nil => simp
  | cons t ts' ih =>
    rw [List.flatMap_cons, List.foldl_append, parse_theaterBlock shows t st hwf]
    rw [ih _]
    simp [List.append_assoc]

/-! ### Round-trip support: the formatted lines are newline-free -/

theorem theatersInOrder_sub (shows : List Server.Shows) :
    ∀ t ∈ Server.theatersInOrder shows, ∃ sh ∈ shows, sh.theater = t := by
  have hgen : ∀ (l : List Server.Shows) (acc : List Str),
      ∀ t ∈ l.foldl
        (fun acc sh => if acc.contains sh.theater then acc else acc ++ [sh.theater]) acc,
        t ∈ acc ∨ ∃ sh ∈ l, sh.theater = t := by
    intro l
    induction l with
    | nil =>
      intro acc t ht
      exact Or.inl ht
    | cons sh rest ih =>
      intro acc t ht
      rw [List.foldl_cons] at ht
      rcases ih _ t ht with h | h
      · by_cases hc : acc.contains sh.theater = true
        · rw [if_pos hc] at h
          exact Or.inl h
        · rw [if_neg hc] at h
          rcases List.mem_append.1 h with h | h
          · exact Or.inl h
          · exact Or.inr ⟨sh, by simp, (List.mem_singleton.1 h).symm⟩
      · obtain ⟨x, hx, hxt⟩ := h
        exact Or.inr ⟨x, by simp [hx], hxt⟩
  intro t ht
  rcases hgen shows [] t ht with h | h
  · simp at h
  · exact h

theorem formatLines_no_newline (shows : List Server.Shows)
    (hwf : ∀ sh ∈ shows, wfShow sh) :
    ∀ l ∈ Server.formatLines shows, '\n' ∉ l := by
  intro l hl hnl
  unfold Server.formatLines at hl
  rcases List.mem_append.1 hl with hl | hl
  · rcases List.mem_cons.1 hl with rfl | hl
    · revert hnl
      decide
    · rw [List.mem_flatMap] at hl
      obtain ⟨t, htmem, hblock⟩ := hl
      obtain ⟨shT, hshT, hshTt⟩ := theatersInOrder_sub shows t htmem
      have htnl : '\n' ∉ t := by
        rw [← hshTt]
        exact (hwf shT hshT).2.1
      unfold Server.theaterBlock at hblock
      rcases List.mem_append.1 hblock with hblock | hblock
      · rcases List.mem_cons.1 hblock with rfl | hblock
        · rcases List.mem_append.1 hnl with h | h
          · revert h; decide
          · exact htnl h
        · rw [List.mem_flatMap] at hblock
          obtain ⟨sh, hshf, hline⟩ := hblock
          have hshmem := (List.mem_filter.1 hshf).1
          obtain ⟨ht1, ht2, hmn, hm1, hm2, hd1, hdn, hd2, hlen⟩ := hwf sh hshmem
          have havail : ∀ n ∈ availList sh.seats, n ≤ 20 := by
            intro n hn
            have := (availList_bounds sh.seats n hn).2
            omega
          unfold Server.showLines at hline
          rcases List.mem_cons.1 hline with rfl | hline
          · rcases List.mem_append.1 hnl with h | h
            · rcases List.mem_append.1 h with h | h
              · rcases List.mem_append.1 h with h | h
                · rcases List.mem_append.1 h with h | h
                  · revert h; decide
                  · exact hmn h
                · revert h; decide
              · exact hdn h
            · revert h; decide
          · rcases List.mem_cons.1 hline with rfl | hline
            · rcases List.mem_append.1 hnl with h | h
              · rcases List.mem_append.1 h with h | h
                · rcases List.mem_append.1 h with h | h
                  · rcases List.mem_append.1 h with h | h
                    · revert h; decide
                    · rw [Server.Shows.getAvailableSeats] at h
                      exact (seatsBody_chars (availList sh.seats) havail '\n' h).2 rfl
                  · revert h; decide
                · have hk : sh.getAvailableSeats.length ≤ 20 := by
                    rw [Server.Shows.getAvailableSeats]
                    have := availList_length_le sh.seats
                    omega
                  exact ((natStr_facts ⟨sh.getAvailableSeats.length, by omega⟩).2 '\n'
                    (by simpa using h)).2.2.2.2.1 rfl
              · revert h; decide
            · simp at hline
      · rw [List.mem_singleton.1 hblock] at hnl
        simp at hnl
  · rcases List.mem_cons.1 hl with rfl | hl
    · revert hnl
      decide
    · simp at hl

theorem formatLines_ne_nil (shows : List Server.Shows) : Server.formatLines shows ≠ [] := by
  unfold Server.formatLines
  simp

/-! ### Round-trip support: the grouped order is a permutation of the input -/

theorem theatersInOrder_complete (shows : List Server.Shows) :
    ∀ sh ∈ shows, sh.theater ∈ Server.theatersInOrder shows := by
  have hgen : ∀ (l : List Server.Shows) (acc : List Str),
      (∀ x ∈ acc, x ∈ l.foldl
        (fun acc sh => if acc.contains sh.theater then acc else acc ++ [sh.theater]) acc)
      ∧ (∀ sh ∈ l, sh.theater ∈ l.foldl
        (fun acc sh => if acc.contains sh.theater then acc else acc ++ [sh.theater]) acc) := by
    intro l
    induction l with
    | nil =>
      intro acc
      exact ⟨fun x hx => hx, by simp⟩
    | cons sh rest ih =>
      intro acc
      constructor
      · intro x hx
        rw [List.foldl_cons]
        apply (ih _).1
        by_cases hc : acc.contains sh.theater = true
        · rw [if_pos hc]
          exact hx
        · rw [if_neg hc]
          exact List.mem_append_left _ hx
      · intro s hs
        rw [List.foldl_cons]
        rcases List.mem_cons.1 hs with rfl | hs
        · apply (ih _).1
          by_cases hc : acc.contains s.theater = true
          · rw [if_pos hc]
            simpa using hc
          · rw [if_neg hc]
            simp
        · exact (ih _).2 s hs
  intro sh hs
  exact (hgen shows []).2 sh hs

theorem theatersInOrder_nodup (shows : List Server.Shows) :
    (Server.theatersInOrder shows).Nodup := by
  have hgen : ∀ (l : List Server.Shows) (acc : List Str), acc.Nodup →
      (l.foldl
        (fun acc sh => if acc.contains sh.theater then acc else acc ++ [sh.theater]) acc).Nodup := by
    intro l
    induction l with
    | nil =>
      intro acc h
      exact h
    | cons sh rest ih =>
      intro acc h
      rw [List.foldl_cons]
      apply ih
      by_cases hc : acc.contains sh.theater = true
      · rw [if_pos hc]
        exact h
      · rw [if_neg hc]
        have hx : sh.theater ∉ acc := by simpa using hc
        simp [List.nodup_append, h, hx]
  exact hgen shows [] List.nodup_nil

theorem filter_union_perm (t : Str) (ts' : List Str) (hnotin : t ∉ ts')
    (shows : List Server.Shows) :
    (shows.filter (fun sh => sh.theater == t)
        ++ shows.filter (fun sh => decide (sh.theater ∈ ts'))).Perm
      (shows.filter (fun sh => decide (sh.theater ∈ t :: ts'))) := by
  induction shows with
  | nil => simp
  | cons sh rest ih =>
    by_cases h1 : sh.theater = t
    · rw [List.filter_cons_of_pos (by simpa using h1),
        List.filter_cons_of_neg (by simp [h1]; exact hnotin),
        List.filter_cons_of_pos (by simp [h1]),
        List.cons_append]
      exact ih.cons sh
    · by_cases h2 : sh.theater ∈ ts'
      · rw [List.filter_cons_of_neg (by simpa using h1),
          List.filter_cons_of_pos (by simpa using h2),
          List.filter_cons_of_pos (by simp [h2])]
        exact List.perm_middle.trans (ih.cons sh)
      · rw [List.filter_cons_of_neg (by simpa using h1),
          List.filter_cons_of_neg (by simpa using h2),
          List.filter_cons_of_neg (by simp [h1, h2])]
        exact ih

theorem flatMap_filter_perm (shows : List Server.Shows) (ts : List Str) (hnd : ts.Nodup) :
    (ts.flatMap (fun t => shows.filter (fun sh => sh.theater == t))).Perm
      (shows.filter (fun sh => decide (sh.theater ∈ ts))) := by
  induction ts with
  | nil => simp
  | cons t ts' ih =>
    rw [List.flatMap_cons]
    have hnd' := List.nodup_cons.1 hnd
    exact (List.Perm.append_left _ (ih hnd'.2)).trans (filter_union_perm t ts' hnd'.1 shows)

theorem groupedByTheater_perm (shows : List Server.Shows) :
    (groupedByTheater shows).Perm shows := by
  unfold groupedByTheater
  have h1 := flatMap_filter_perm shows (Server.theatersInOrder shows)
    (theatersInOrder_nodup shows)
  have h2 : shows.filter (fun sh => decide (sh.theater ∈ Server.theatersInOrder shows))
      = shows :=
    List.filter_eq_self.2 (fun sh hs => by simpa using theatersInOrder_complete shows sh hs)
  rw [h2] at h1
  exact h1

/-! ### Snapshot round-trip (claim C3) -/

/-- C3 as stated is false on the code: a show whose date/time string is
empty produces a movie line `  Movie: M ()` in which the parser's
`startDate < endDate` test fails, so no show entry is created at all —
the round-trip of a one-show catalog yields zero entries, not one. -/
theorem snapshot_roundtrip_counterexample :
    CinemaClient.parseAndUpdateShows (Server.CinemaService.formatCinemaData
      [⟨strOf "M", [], strOf "T", List.replicate 20 false⟩]) = [] := by
  decide

/-- C3 amended: for well-formed shows (nonempty theater and date/time, no
newline in any display field, no parenthesis in the movie title, no
closing parenthesis in the date/time, 20-seat bitmap), parsing the
formatted initial snapshot reconstructs exactly one entry per input show
— in the formatter's theater-grouped order, a permutation of the input —
with identical movie, date/time, theater and seat bitmap (hence an
identical available-seat set). -/
theorem snapshot_roundtrip (shows : List Server.Shows)
    (hwf : ∀ sh ∈ shows, wfShow sh) :
    CinemaClient.parseAndUpdateShows (Server.CinemaService.formatCinemaData shows)
      = (groupedByTheater shows).map reconstruct
    ∧ (groupedByTheater shows).Perm shows := by
  refine ⟨?_, groupedByTheater_perm shows⟩
  unfold CinemaClient.parseAndUpdateShows Server.CinemaService.formatCinemaData
  rw [getlineSplit_linesJoin _ (formatLines_ne_nil shows) (formatLines_no_newline shows hwf)]
  unfold Server.formatLines
  rw [List.foldl_append]
  have hhead : List.foldl CinemaClient.parseLine
      (⟨[], false, []⟩ : CinemaClient.ParseState)
      (strOf "=== CINEMA DATA STREAM ==="
        :: (Server.theatersInOrder shows).flatMap (Server.theaterBlock shows))
      = List.foldl CinemaClient.parseLine ⟨[], false, []⟩
        ((Server.theatersInOrder shows).flatMap (Server.theaterBlock shows)) := by
    rw [List.foldl_cons, parseLine_header]
  rw [hhead]
  rw [List.foldl_cons, List.foldl_nil, parseLine_footer]
  rw [parse_blocks shows (Server.theatersInOrder shows) ⟨[], false, []⟩ hwf]
  unfold groupedByTheater
  simp

theorem snapshot_roundtrip_witness :
    (CinemaClient.parseAndUpdateShows (Server.CinemaService.formatCinemaData [sh0, shBooked1])
      = (groupedByTheater [sh0, shBooked1]).map reconstruct)
    ∧ (groupedByTheater [sh0, shBooked1]).Perm [sh0, shBooked1] :=
  snapshot_roundtrip [sh0, shBooked1] (by decide)
